import Mathlib

/-!
Verification of the deterministic text-cleaning pipeline, keyword scheme
classifier and configuration generator of the scheme-extraction repository.

Modelling conventions (shallow embedding):
* Python `str` is modelled as `List Char` (`Str`); ASCII-oriented operations
  (`str.lower`, `str.strip`, the `\s`/`\w`/`\d` regex classes) are modelled on
  the ASCII range, which is the range the source's patterns and the inputs
  below exercise.
* Python dicts are ordered association lists; assignment replaces a present
  key in place and appends an absent key at the end, as CPython dicts do.
* Regated regular-expression searches are carried out by a small backtracking
  engine (`Rx`) whose candidate order equals Python `re`'s backtracking order
  (greedy/lazy quantifiers, alternation left first); each source pattern is
  transcribed as an `Rx` value next to its source text.
* The external `unicodedata.normalize('NFKC', ·)` call is an opaque
  collaborator and is taken as a function parameter `nfkc`; concrete
  evaluations instantiate it with `id`, its value on the pure-ASCII inputs
  used there.
* Loggers only emit debug text and are dropped; the audit counters of
  `DeterministicContentCleaner.audit_summary` are threaded explicitly
  (`Audit`).  The `audit_log` list is never appended to by the source and is
  omitted.  A "run" is one `clean` call on a fresh instance, so counters
  start at zero.
-/

abbrev Str := List Char

/-- Python whitespace for `str.strip` and the regex class `\s`
(ASCII range: space, tab, newline, carriage return, vertical tab, form feed). -/
def isPySpace (c : Char) : Bool :=
  c = ' ' || c = '\t' || c = '\n' || c = '\r' || c.toNat = 11 || c.toNat = 12

/-- Python `str.strip()`: drop leading and trailing whitespace. -/
def strip (s : Str) : Str :=
  ((s.dropWhile isPySpace).reverse.dropWhile isPySpace).reverse

/-- ASCII lowercase conversion, modelling `str.lower()` on the inputs used here. -/
def lowerChar (c : Char) : Char :=
  if 'A' ≤ c ∧ c ≤ 'Z' then Char.ofNat (c.toNat + 32) else c

def lowerStr (s : Str) : Str := s.map lowerChar

/-- `needle in hay` for Python strings (substring containment). -/
def containsSub (needle hay : Str) : Bool :=
  hay.tails.any (fun t => needle.isPrefixOf t)

/-- Python `text.split('\n')`. -/
def splitNl : Str → List Str
  | [] => [[]]
  | c :: rest =>
    if c = '\n' then [] :: splitNl rest
    else
      match splitNl rest with
      | [] => [[c]]
      | l :: ls => (c :: l) :: ls

/-- Python `'\n'.join(lines)`. -/
def joinNl (ls : List Str) : Str := List.intercalate ['\n'] ls

/-- The paragraph separator `'\n\n'`. -/
def nn : Str := ['\n', '\n']

/-! ## ConfigGenerator (src/src/utils/config_generator.py)

Field-bag values produced by the LLM layer are strings or lists of strings. -/

inductive PyVal where
  | str (v : String)
  | strList (v : List String)
deriving DecidableEq

abbrev FieldBag := List (String × PyVal)

/-- First-match association lookup (Python dicts have unique keys). -/
def aGet? {β : Type} (m : List (String × β)) (k : String) : Option β :=
  match m with
  | [] => none
  | (k', v) :: rest => if k' = k then some v else aGet? rest k

/-- Dict assignment: replace a present key in place, append an absent key,
as CPython dicts do. -/
def aSet {β : Type} (m : List (String × β)) (k : String) (v : β) :
    List (String × β) :=
  if m.any (fun p => p.1 = k) then
    m.map (fun p => if p.1 = k then (k, v) else p)
  else m ++ [(k, v)]

/-- `del m[k]`. -/
def aDel {β : Type} (m : List (String × β)) (k : String) : List (String × β) :=
  m.filter (fun p => ¬ p.1 = k)

def dictGet? (m : FieldBag) (k : String) : Option PyVal := aGet? m k

/-- Python `dict.get(k, default)`. -/
def dictGetD (m : FieldBag) (k : String) (d : PyVal) : PyVal :=
  (dictGet? m k).getD d

/-- Python truthiness of a field value (`""` and `[]` are falsy). -/
def pyFalsy (v : PyVal) : Bool :=
  match v with
  | .str s => s = ""
  | .strList l => l = []

/-- `{**a, **b}`: keys of `a` in order (values overridden by `b`), then the
keys only in `b`, in order. -/
def mergeBag (a b : FieldBag) : FieldBag :=
  (a.map (fun p => match dictGet? b p.1 with
    | some v => (p.1, v)
    | none => p)) ++
  b.filter (fun p => (dictGet? a p.1).isNone)

/-- How a `PyVal` renders inside an f-string (`str` as itself, lists via `repr`). -/
def pyFmt (v : PyVal) : String :=
  match v with
  | .str s => s
  | .strList l =>
    "[" ++ String.intercalate ", " (l.map (fun s => "'" ++ s ++ "'")) ++ "]"

/-- Values of the `fields` map built by the generators. -/
abbrev FMap := List (String × PyVal)

inductive OVal where
  | str (v : String)
  | fmap (m : FMap)
  | plist (l : List FMap)
deriving DecidableEq

abbrev ConfigResult := List (String × OVal)

def oGet? (m : ConfigResult) (k : String) : Option OVal := aGet? m k

def oHasKey (m : ConfigResult) (k : String) : Bool := (oGet? m k).isSome

/-- Dict assignment on the result. -/
def oSet (m : ConfigResult) (k : String) (v : OVal) : ConfigResult := aSet m k v

/-- `del m[k]`. -/
def oDel (m : ConfigResult) (k : String) : ConfigResult := aDel m k

/-- Dict assignment on a `fields` map. -/
def fSet (m : FMap) (k : String) (v : PyVal) : FMap := aSet m k v

def fGet? (m : FMap) (k : String) : Option PyVal := aGet? m k

/-- `ConfigGenerator._get_config_field`: LLM-extracted field with truthiness
fallback (`value if value else fallback`). -/
def getConfigField (fields : FieldBag) (key : String) (fallback : PyVal) : PyVal :=
  match dictGet? fields key with
  | none => fallback
  | some v => if pyFalsy v then fallback else v

/-- `ConfigGenerator._gen_PDC`. -/
def gen_PDC (fields : FieldBag) : ConfigResult :=
  [("config_type", .str "PDC"),
   ("extraction_source", .str "LLM"),
   ("fields", .fmap
     [("ProductId", .str "Populate from FSN File"),
      ("brandSupport", getConfigField fields "config_brand_support" (.str "Not specified")),
      ("maxQuantity", getConfigField fields "config_unit_slab_upper" (.str "999999")),
      ("priceDropDate", dictGetD fields "price_drop_date" (.str "N/A")),
      ("maxSupportValue", getConfigField fields "config_max_support_value" (.str "No Cap"))])]

/-- `ConfigGenerator._gen_BUY_SIDE_PERIODIC_CLAIM`. -/
def gen_BUY_SIDE_PERIODIC_CLAIM (fields : FieldBag) : ConfigResult :=
  [("config_type", .str "BS-PC"),
   ("extraction_source", .str "LLM"),
   ("fields", .fmap
     [("ProductId", .str "Populate from FSN File"),
      ("unitSlabLower", getConfigField fields "config_unit_slab_lower" (.str "0")),
      ("unitSlabUpper", getConfigField fields "config_unit_slab_upper" (.str "999999")),
      ("brandSupport", getConfigField fields "config_brand_support" (.str "Not specified")),
      ("maxSupportValue", getConfigField fields "config_max_support_value" (.str "No Cap")),
      ("bestBetQuantity", dictGetD fields "best_bet" (.str "N/A"))])]

/-- `ConfigGenerator._gen_BUY_SIDE_PDC`. -/
def gen_BUY_SIDE_PDC (fields : FieldBag) : ConfigResult :=
  [("config_type", .str "BS-PDC"),
   ("extraction_source", .str "LLM"),
   ("fields", .fmap
     [("ProductId", .str "Populate from FSN File"),
      ("brandSupport", getConfigField fields "config_brand_support" (.str "Not specified")),
      ("maxQuantity", getConfigField fields "config_unit_slab_upper" (.str "999999")),
      ("maxSupportValue", getConfigField fields "config_max_support_value" (.str "No Cap"))])]

/-- `ConfigGenerator._gen_SELL_SIDE_CP`. -/
def gen_SELL_SIDE_CP (fields : FieldBag) : ConfigResult :=
  [("config_type", .str "SS-CP"),
   ("extraction_source", .str "LLM"),
   ("fields", .fmap
     [("ProductId", .str "Populate from FSN File"),
      ("brandSupport", getConfigField fields "config_brand_support" (.str "Not specified")),
      ("vendorSplitRatio", getConfigField fields "config_vendor_split_ratio" (.str "Not specified"))])]

/-- `ConfigGenerator._gen_SELL_SIDE_PUC`. -/
def gen_SELL_SIDE_PUC (fields : FieldBag) : ConfigResult :=
  [("config_type", .str "SS-PUC"),
   ("extraction_source", .str "LLM"),
   ("fields", .fmap
     [("ProductId", .str "Populate from FSN File"),
      ("brandSupport", getConfigField fields "config_brand_support" (.str "Not specified")),
      ("vendorSplitRatio", getConfigField fields "config_vendor_split_ratio" (.str "Not specified")),
      ("unitSlabLower", getConfigField fields "config_unit_slab_lower" (.str "0")),
      ("unitSlabUpper", getConfigField fields "config_unit_slab_upper" (.str "999999")),
      ("maxSupportValue", getConfigField fields "config_max_support_value" (.str "No Cap")),
      ("margin", getConfigField fields "config_margin" (.str "Not specified"))])]

/-- `ConfigGenerator._gen_SELL_SIDE_PRX`. -/
def gen_SELL_SIDE_PRX (fields : FieldBag) : ConfigResult :=
  [("config_type", .str "SS-PRX"),
   ("extraction_source", .str "LLM"),
   ("fields", .fmap
     [("ProductId", .str "Populate from FSN File"),
      ("incomingFsn", .str "Populate from Exchange FSN File"),
      ("vendorSplitRatio", getConfigField fields "config_vendor_split_ratio" (.str "Not specified")),
      ("exchangeSlabFrom", getConfigField fields "config_unit_slab_lower" (.str "0")),
      ("exchangeSlabTo", getConfigField fields "config_unit_slab_upper" (.str "999999")),
      ("agreedSupport", getConfigField fields "config_brand_support" (.str "Not specified"))])]

/-- `ConfigGenerator._gen_SELL_SIDE_SC`. -/
def gen_SELL_SIDE_SC (fields : FieldBag) : ConfigResult :=
  [("config_type", .str "SS-SC"),
   ("extraction_source", .str "LLM"),
   ("fields", .fmap
     [("ProductId", .str "Populate from FSN File"),
      ("brandSupport", getConfigField fields "config_brand_support" (.str "Not specified"))])]

/-- `ConfigGenerator._gen_SELL_SIDE_LS`. -/
def gen_SELL_SIDE_LS (fields : FieldBag) : ConfigResult :=
  [("config_type", .str "SS-LS"),
   ("extraction_source", .str "LLM + Local Mapping"),
   ("site_id", .str (match dictGetD fields "site_id" (.str "National") with
     | .str s => s
     | v => pyFmt v)),
   ("fields", .fmap
     [("ProductId", .str "Populate from FSN File"),
      ("unitSlabLower", getConfigField fields "config_unit_slab_lower" (.str "0")),
      ("unitSlabUpper", getConfigField fields "config_unit_slab_upper" (.str "999999")),
      ("brandSupport", getConfigField fields "config_brand_support" (.str "Not specified")),
      ("vendorSplitRatio", getConfigField fields "config_vendor_split_ratio" (.str "Not specified")),
      ("margin", dictGetD fields "margin" (getConfigField fields "config_margin" (.str "Not specified"))),
      ("dmrpType", dictGetD fields "dmrpType" (.str "Manual - From DMRP File")),
      ("dmrpValue", dictGetD fields "dmrpValue" (.str "Manual - From DMRP File")),
      ("maxSupportValue", getConfigField fields "config_max_support_value"
        (dictGetD fields "min_actual_discount_or_agreed_claim" (.str "N/A")))])]

/-- The `_gen_{scheme_type}_{scheme_subtype}` attribute names that exist on the
class; `hasattr` dispatch succeeds exactly when the formatted name is one of
these (list-valued classifications render with brackets and can never match). -/
def registeredGenNames : List String :=
  ["BUY_SIDE_PERIODIC_CLAIM", "BUY_SIDE_PDC", "SELL_SIDE_CP", "SELL_SIDE_PUC",
   "SELL_SIDE_PRX", "SELL_SIDE_SC", "SELL_SIDE_LS"]

def hasattrGenName (st ss : PyVal) : Option String :=
  match st, ss with
  | .str t, .str s =>
    if (t ++ "_" ++ s) ∈ registeredGenNames then some (t ++ "_" ++ s) else none
  | _, _ => none

def genByName (name : String) (fields : FieldBag) : ConfigResult :=
  if name = "BUY_SIDE_PERIODIC_CLAIM" then gen_BUY_SIDE_PERIODIC_CLAIM fields
  else if name = "BUY_SIDE_PDC" then gen_BUY_SIDE_PDC fields
  else if name = "SELL_SIDE_CP" then gen_SELL_SIDE_CP fields
  else if name = "SELL_SIDE_PUC" then gen_SELL_SIDE_PUC fields
  else if name = "SELL_SIDE_PRX" then gen_SELL_SIDE_PRX fields
  else if name = "SELL_SIDE_SC" then gen_SELL_SIDE_SC fields
  else gen_SELL_SIDE_LS fields

/-- `resolved_fsns` handling: falsy values default to the placeholder list;
iterating a string yields its characters (Python `for fsn in "abc"`). -/
def fsnIter (v : Option PyVal) : List String :=
  match v with
  | none => ["Populate from FSN File"]
  | some (.str s) =>
    if s = "" then ["Populate from FSN File"]
    else s.toList.map (fun c => String.mk [c])
  | some (.strList l) =>
    if l = [] then ["Populate from FSN File"] else l

/-- The multi-product block at the end of `generate_config` (lines 68-83):
clone the `fields` map once per FSN, keep `fields` for one FSN, replace it by
a `products` list for several. -/
def multiProduct (cr : ConfigResult) (fsns : List String) : ConfigResult :=
  match oGet? cr "fields" with
  | some (.fmap base) =>
    let product_list := fsns.map (fun fsn => fSet base "ProductId" (.str fsn))
    if 1 < product_list.length then
      oDel (oSet cr "products" (.plist product_list)) "fields"
    else
      match fsns with
      | f0 :: _ => oSet cr "fields" (.fmap (fSet base "ProductId" (.str f0)))
      | [] => cr
  | _ => cr

/-- The dispatch part of `ConfigGenerator.generate_config` (lines 19-66),
before multi-product handling; the two `return` branches (OFC, error) are
surfaced through `generate_config` below. -/
def dispatchConfig (scheme_type scheme_subtype : PyVal) (fields : FieldBag) :
    ConfigResult :=
  if scheme_type = .str "PDC" then gen_PDC fields
  else
    match hasattrGenName scheme_type scheme_subtype with
    | some name => genByName name fields
    | none =>
      if scheme_type = .str "BUY_SIDE" then
        if scheme_subtype = .str "PERIODIC_CLAIM" then gen_BUY_SIDE_PERIODIC_CLAIM fields
        else if scheme_subtype = .str "PDC" then gen_BUY_SIDE_PDC fields
        else []
      else if scheme_type = .str "SELL_SIDE" then
        if scheme_subtype = .str "CP" then gen_SELL_SIDE_CP fields
        else if scheme_subtype = .str "PUC" then gen_SELL_SIDE_PUC fields
        else if scheme_subtype = .str "PRX" then gen_SELL_SIDE_PRX fields
        else if scheme_subtype = .str "SC" then gen_SELL_SIDE_SC fields
        else if scheme_subtype = .str "LS" then gen_SELL_SIDE_LS fields
        else []
      else []

/-- Whether dispatch falls through to the `OFC` early return. -/
def isOfcBag (scheme_type : PyVal) : Bool := scheme_type = .str "OFC"

/-- Whether dispatch falls through to the error early return: no branch of the
`if`/`elif` chain matched. -/
def isErrorBag (scheme_type scheme_subtype : PyVal) : Bool :=
  ¬ scheme_type = .str "PDC" &&
  (hasattrGenName scheme_type scheme_subtype).isNone &&
  ¬ scheme_type = .str "BUY_SIDE" &&
  ¬ scheme_type = .str "SELL_SIDE" &&
  ¬ scheme_type = .str "OFC"

/-- `ConfigGenerator.generate_config`. -/
def generate_config (fields0 : FieldBag) (enrichment : Option FieldBag) :
    ConfigResult :=
  let scheme_type := dictGetD fields0 "scheme_type" (.str "")
  let scheme_subtype := dictGetD fields0 "scheme_subtype" (.str "")
  let fields := match enrichment with
    | some e => mergeBag fields0 e
    | none => fields0
  let resolve_fsns := fsnIter (dictGet? fields "resolved_fsns")
  if isErrorBag scheme_type scheme_subtype then
    [("error", .str ("Unknown scheme configuration for " ++ pyFmt scheme_type
      ++ " - " ++ pyFmt scheme_subtype))]
  else if isOfcBag scheme_type && ¬ scheme_type = .str "PDC" &&
      (hasattrGenName scheme_type scheme_subtype).isNone then
    [("info", .str "No FSN Config required for OFC")]
  else
    multiProduct (dispatchConfig scheme_type scheme_subtype fields) resolve_fsns

/-! ## SchemeClassifier (src/src/dspy_modules/scheme_classifier.py)
with the keyword lists of `Config.SCHEME_KEYWORDS` (src/src/config.py). -/

def kwBuySidePeriodic : List String :=
  ["jbp", "joint business plan", "tot", "terms of trade",
   "sell in", "sell-in", "sellin", "buy side", "buyside",
   "periodic", "quarter", "q1", "q2", "q3", "q4",
   "annual", "fy", "yearly support", "marketing support",
   "gmv support", "nrv", "nrv-linked", "inwards",
   "net inwards", "inventory support", "business plan",
   "commercial alignment", "funding for fy"]

def kwBuySidePdc : List String :=
  ["price drop", "price protection", "pp", "pdc",
   "cost reduction", "nlc change", "cost change",
   "sellin price drop", "invoice cost correction",
   "backward margin", "revision in buy price"]

def kwOneOff : List String :=
  ["one off", "one-off", "one off buyside",
   "one off sell side", "ad-hoc approval", "special approval"]

def kwSellSidePucFdc : List String :=
  ["sellout", "sell out", "sell-side", "puc", "cp", "fdc",
   "pricing support", "channel support", "market support",
   "discount on selling price", "rest all support"]

def kwSellSideCoupon : List String :=
  ["coupon", "vpc", "promo code", "offer code",
   "discount coupon", "voucher"]

def kwSellSideSuperCoin : List String :=
  ["super coin", "sc funding", "loyalty coins"]

def kwSellSidePrexo : List String :=
  ["exchange", "prexo", "upgrade", "bump up", "bup",
   "exchange offer"]

def kwSellSideBankOffer : List String :=
  ["bank offer", "card offer", "hdfc offer", "axis offer",
   "icici offer", "cashback", "emi offer"]

/-- `SchemeClassifier._find_keywords`: the keywords contained in the
lowercased text, in list order. -/
def findKeywords (text : Str) (kws : List String) : List String :=
  kws.filter (fun k => containsSub k.toList (lowerStr text))

def joinComma (l : List String) : String := String.intercalate ", " l

/-- `SchemeClassifier.classify`: (scheme_type, scheme_subtype, reasoning). -/
def classify (text : Str) : String × String × String :=
  let one_off := findKeywords text kwOneOff
  if ¬ one_off = [] then
    ("ONE_OFF", "N/A", "Found ONE_OFF keywords: " ++ joinComma one_off)
  else
    let buy_side_periodic := findKeywords text kwBuySidePeriodic
    let buy_side_pdc := findKeywords text kwBuySidePdc
    let puc_fdc := findKeywords text kwSellSidePucFdc
    let coupon := findKeywords text kwSellSideCoupon
    let super_coin := findKeywords text kwSellSideSuperCoin
    let prexo := findKeywords text kwSellSidePrexo
    let bank_offer := findKeywords text kwSellSideBankOffer
    if ¬ buy_side_pdc = [] then
      ("BUY_SIDE", "PDC", "Found BUY_SIDE → PDC keywords: " ++ joinComma buy_side_pdc)
    else if ¬ buy_side_periodic = [] then
      ("BUY_SIDE", "PERIODIC_CLAIM",
       "Found BUY_SIDE → PERIODIC_CLAIM keywords: " ++ joinComma buy_side_periodic)
    else if ¬ bank_offer = [] then
      ("SELL_SIDE", "BANK OFFER", "Found SELL_SIDE → BANK OFFER keywords: " ++ joinComma bank_offer)
    else if ¬ coupon = [] then
      ("SELL_SIDE", "COUPON", "Found SELL_SIDE → COUPON keywords: " ++ joinComma coupon)
    else if ¬ super_coin = [] then
      ("SELL_SIDE", "SUPER COIN", "Found SELL_SIDE → SUPER COIN keywords: " ++ joinComma super_coin)
    else if ¬ prexo = [] then
      ("SELL_SIDE", "PREXO", "Found SELL_SIDE → PREXO keywords: " ++ joinComma prexo)
    else if ¬ puc_fdc = [] then
      ("SELL_SIDE", "PUC/FDC", "Found SELL_SIDE → PUC/FDC keywords: " ++ joinComma puc_fdc)
    else
      ("SELL_SIDE", "PUC/FDC", "No specific keywords found. Defaulting to SELL_SIDE → PUC/FDC")

/-! ## A small regex engine

Backtracking matcher over `List Char` whose candidate order equals Python
`re`'s: alternation prefers the left branch, greedy quantifiers prefer the
longest repetition, lazy ones the shortest.  States carry the previous
character so that `\b`, `^` and `$` can be decided; `^`/`$` are the
non-MULTILINE Python anchors. -/

inductive Rx where
  | eps
  | cls (p : Char → Bool)
  | lit (s : Str)
  | litCI (s : Str)
  | seq (a b : Rx)
  | alt (a b : Rx)
  | star (p : Char → Bool)
  | starL (p : Char → Bool)
  | rep (p : Char → Bool) (lo : Nat) (hi : Option Nat)
  | opt (a : Rx)
  | bnd
  | bos
  | eos

abbrev RxSt := Option Char × Str

/-- The regex word class `\w` (ASCII model). -/
def isWordChar (c : Char) : Bool :=
  ('a' ≤ c && c ≤ 'z') || ('A' ≤ c && c ≤ 'Z') || ('0' ≤ c && c ≤ '9') || c = '_'

def wordAt : Option Char → Bool
  | none => false
  | some c => isWordChar c

/-- States after consuming `0, 1, 2, …` characters of the maximal `p`-run,
in increasing order, tagged with the repetition count. -/
def runStates (p : Char → Bool) : Option Char → Str → List (Nat × RxSt)
  | pv, [] => [(0, pv, [])]
  | pv, c :: rest =>
    (0, pv, c :: rest) ::
      (if p c then (runStates p (some c) rest).map (fun s => (s.1 + 1, s.2)) else [])

def okHi (hi : Option Nat) (k : Nat) : Bool :=
  match hi with
  | none => true
  | some h => k ≤ h

def lastPrev (pv : Option Char) (consumed : Str) : Option Char :=
  match consumed.getLast? with
  | some c => some c
  | none => pv

/-- All continuation states of matching `r` from the given state, in Python
backtracking priority order. -/
def rxRun : Rx → Option Char → Str → List RxSt
  | .eps, pv, l => [(pv, l)]
  | .cls p, _, l =>
    match l with
    | [] => []
    | c :: rest => if p c then [(some c, rest)] else []
  | .lit s, pv, l =>
    if s.isPrefixOf l then [(lastPrev pv (l.take s.length), l.drop s.length)] else []
  | .litCI s, pv, l =>
    if (lowerStr s).isPrefixOf (lowerStr l) then
      [(lastPrev pv (l.take s.length), l.drop s.length)]
    else []
  | .seq a b, pv, l => (rxRun a pv l).flatMap (fun st => rxRun b st.1 st.2)
  | .alt a b, pv, l => rxRun a pv l ++ rxRun b pv l
  | .star p, pv, l => ((runStates p pv l).map (fun s => s.2)).reverse
  | .starL p, pv, l => (runStates p pv l).map (fun s => s.2)
  | .rep p lo hi, pv, l =>
    (((runStates p pv l).filter (fun s => lo ≤ s.1 && okHi hi s.1)).map (fun s => s.2)).reverse
  | .opt a, pv, l => rxRun a pv l ++ [(pv, l)]
  | .bnd, pv, l =>
    if wordAt pv ≠ (match l with | [] => false | c :: _ => isWordChar c) then [(pv, l)] else []
  | .bos, pv, l => if pv.isNone then [(pv, l)] else []
  | .eos, pv, l => if l.isEmpty || l = ['\n'] then [(pv, l)] else []

/-- `re.search`: does `r` match starting at some position? -/
def rxSearchAux (r : Rx) : Option Char → Str → Bool
  | pv, [] => ¬ (rxRun r pv []).isEmpty
  | pv, c :: rest => ¬ (rxRun r pv (c :: rest)).isEmpty || rxSearchAux r (some c) rest

def rxSearch (r : Rx) (t : Str) : Bool := rxSearchAux r none t

def rxSeqL (l : List Rx) : Rx := l.foldr Rx.seq Rx.eps

def rxAltL : List Rx → Rx
  | [] => Rx.cls (fun _ => false)
  | [r] => r
  | r :: rest => .alt r (rxAltL rest)

def rcs (s : String) : Rx := .lit s.toList

def rci (s : String) : Rx := .litCI s.toList

def isDigitB (c : Char) : Bool := '0' ≤ c && c ≤ '9'

def isAsciiAlpha (c : Char) : Bool := ('a' ≤ c && c ≤ 'z') || ('A' ≤ c && c ≤ 'Z')

def isUpperB (c : Char) : Bool := 'A' ≤ c && c ≤ 'Z'

def isDash (c : Char) : Bool := c = '-'

def anyNoNl (c : Char) : Bool := ¬ c = '\n'

/-- `[a-z0-9._%+-]` under `re.IGNORECASE`. -/
def isEmA (c : Char) : Bool :=
  isAsciiAlpha c || isDigitB c || c = '.' || c = '_' || c = '%' || c = '+' || c = '-'

/-- `[a-z0-9.-]` under `re.IGNORECASE`. -/
def isEmB (c : Char) : Bool := isAsciiAlpha c || isDigitB c || c = '.' || c = '-'

def isQuoteChar (c : Char) : Bool := c.toNat = 34 || c.toNat = 39

/-- `[\w\s.-]`. -/
def isNameChar (c : Char) : Bool := isWordChar c || isPySpace c || c = '.' || c = '-'

def isCurrency (c : Char) : Bool :=
  c = '₹' || c = '€' || c = '£' || c = '¥' || c = '$'

def isSlashDash (c : Char) : Bool := c = '/' || c = '-'

/-! ## The email-address pattern `[a-z0-9._%+-]+@[a-z0-9.-]+\.[a-z]{2,}`
(always used with `re.IGNORECASE`).

`@` is not in the local class, so `+` backtracking is deterministic there;
after `@` the domain class contains `.`, so Python backtracks from the
longest `[a-z0-9.-]+` run to the last `.` inside the run that is followed by
two alphabetic characters, then `[a-z]{2,}` greedily takes the alphabetic
run after that dot.  `matchEmailRem l` returns the remainder after a match
anchored at the head of `l`. -/

def isAlphaAt (r : Str) (k : Nat) : Bool :=
  match r.get? k with
  | some c => isAsciiAlpha c
  | none => false

/-- Consumed length inside the domain run: position of the chosen dot plus
the alphabetic run after it. -/
def emailTldSplit (r : Str) : Option Nat :=
  match ((List.range r.length).filter (fun k =>
      r.get? k = some '.' && isAlphaAt r (k + 1) && isAlphaAt r (k + 2))).getLast? with
  | none => none
  | some k => some (k + 1 + ((r.drop (k + 1)).takeWhile isAsciiAlpha).length)

def matchEmailRem (l : Str) : Option Str :=
  let localRun := l.takeWhile isEmA
  if localRun.isEmpty then none
  else
    match l.drop localRun.length with
    | '@' :: rest =>
      match emailTldSplit (rest.takeWhile isEmB) with
      | some consumed => some (rest.drop consumed)
      | none => none
    | _ => none

/-- `re.search` of the email pattern. -/
def hasEmailB (l : Str) : Bool := l.tails.any (fun t => (matchEmailRem t).isSome)

/-- `re.sub(email_pattern, '', text)`: remove all non-overlapping matches,
left to right.  Fuel is the text length; each step consumes at least one
character, so the fuel never runs out. -/
def removeEmailsF : Nat → Str → Str
  | 0, l => l
  | _ + 1, [] => []
  | fuel + 1, c :: rest =>
    match matchEmailRem (c :: rest) with
    | some rem => removeEmailsF fuel rem
    | none => c :: removeEmailsF fuel rest

def removeEmails (l : Str) : Str := removeEmailsF l.length l

/-! ## CcFooterCleaner (src/src/cleaners/cc_footer_cleaner.py) -/

/-- `HEADER_PATTERNS[0]`: `(?i)^\s*(From|Sent|Date|To|Subject)\s*:.*` -/
def hpFromSent : Rx :=
  rxSeqL [.bos, .star isPySpace,
    rxAltL [rci "From", rci "Sent", rci "Date", rci "To", rci "Subject"],
    .star isPySpace, rcs ":", .star anyNoNl]

/-- `HEADER_PATTERNS[1]`: `(?i)-+\s*Forwarded message\s*-+` -/
def hpForwarded : Rx :=
  rxSeqL [.rep isDash 1 none, .star isPySpace, rci "Forwarded message",
    .star isPySpace, .rep isDash 1 none]

/-- `HEADER_PATTERNS[2]`: `(?i)On\s+.*wrote\s*:` -/
def hpWrote : Rx :=
  rxSeqL [rci "On", .rep isPySpace 1 none, .star anyNoNl, rci "wrote",
    .star isPySpace, rcs ":"]

/-- `HEADER_PATTERNS[3]`: `(?i)\b[a-z0-9._%+-]+@[a-z0-9.-]+\.[a-z]{2,}\b.*?(?:AM|PM|at|on)` -/
def hpEmailTime : Rx :=
  rxSeqL [.bnd, .rep isEmA 1 none, rcs "@", .rep isEmB 1 none, rcs ".",
    .rep isAsciiAlpha 2 none, .bnd, .starL anyNoNl,
    rxAltL [rci "AM", rci "PM", rci "at", rci "on"]]

/-- `HEADER_PATTERNS[4]`: `(?i)^\s*(?:["\']?[\w\s.-]+["\']?\s*)?<...email...>` -/
def hpAngleEmail : Rx :=
  rxSeqL [.bos, .star isPySpace,
    .opt (rxSeqL [.opt (.cls isQuoteChar), .rep isNameChar 1 none,
      .opt (.cls isQuoteChar), .star isPySpace]),
    rcs "<", .rep isEmA 1 none, rcs "@", .rep isEmB 1 none, rcs ".",
    .rep isAsciiAlpha 2 none, rcs ">"]

/-- `HEADER_PATTERNS[5]`: `(?i)^\d{1,2}/\d{1,2}/\d{2,4},?\s+\d{1,2}:\d{2}\s*(?:AM|PM)$` -/
def hpTimestamp : Rx :=
  rxSeqL [.bos, .rep isDigitB 1 (some 2), rcs "/", .rep isDigitB 1 (some 2),
    rcs "/", .rep isDigitB 2 (some 4), .opt (rcs ","), .rep isPySpace 1 none,
    .rep isDigitB 1 (some 2), rcs ":", .rep isDigitB 2 (some 2),
    .star isPySpace, rxAltL [rci "AM", rci "PM"], .eos]

def headerPatternList : List Rx :=
  [hpFromSent, hpForwarded, hpWrote, hpEmailTime, hpAngleEmail, hpTimestamp]

/-- `FOOTER_PATTERNS`. -/
def footerPatternList : List Rx :=
  [rxSeqL [rci "http", .opt (rci "s"), rci "://mail.google.com/", .star anyNoNl],
   rci "[Quoted text hidden]",
   rxSeqL [.bos, .rep isDigitB 1 none, rcs "/", .rep isDigitB 1 none, .eos],
   rci "click here to unsubscribe",
   rci "manage preferences"]

/-- `re.search(r'(?i)^\s*(From|To|Cc|Sent|Subject|Date)\s*:', line)`. -/
def metadataRx : Rx :=
  rxSeqL [.bos, .star isPySpace,
    rxAltL [rci "From", rci "To", rci "Cc", rci "Sent", rci "Subject", rci "Date"],
    .star isPySpace, rcs ":"]

/-- `CcFooterCleaner._is_header`. -/
def ccfIsHeader (text : Str) : Bool :=
  let lines := ((splitNl text).map strip).filter (fun l => ¬ l.isEmpty)
  if lines.isEmpty then false
  else if rxSearch hpForwarded text || rxSearch hpWrote text then true
  else
    let has_metadata := lines.any (fun line => rxSearch metadataRx line)
    let header_lines :=
      (lines.filter (fun line => headerPatternList.any (fun p => rxSearch p line))).length
    if lines.length = 1 then header_lines = 1
    else (lines.length ≤ 2 * header_lines) || (has_metadata && lines.length < 5)

/-- `CcFooterCleaner._is_footer`. -/
def ccfIsFooter (text : Str) : Bool :=
  footerPatternList.any (fun p => rxSearch p text)

/-! ## DisclaimerCleaner (src/src/cleaners/disclaimer_cleaner.py) -/

def disclaimerKeywords : List String :=
  ["confidential", "legally protected", "intended solely", "disclosure",
   "dissemination", "distribution", "recipient", "notify the sender",
   "delete it permanently", "viruses", "malicious codes", "liability",
   "damages", "error", "transaction", "contract", "privilege",
   "prohibited", "reliance", "omissions", "disclaims", "attached files",
   "mutations", "defamatory", "infringement", "copyright",
   "electronic transmission", "not necessarily secure", "mutations in their transfer"]

/-- `BOILERPLATE_PATTERNS` (all inline `(?i)`). -/
def boilerplateList : List Rx :=
  [rci "intended solely for the addressee",
   rci "intended solely for the use of the individual",
   rci "confidentiality notice",
   rci "delete this email",
   rci "views or opinions presented",
   rci "accepts no liability",
   rci "do not reply to this email",
   rci "system generated",
   rci "this email and any files transmitted",
   rci "disclosing, copying, distributing or taking any action",
   rci "contrary to organizational policy",
   rci "employee responsible will be personally liable",
   rxSeqL [rci "on behalf of the ", .star anyNoNl, rci " group"]]

/-- `DisclaimerCleaner._is_disclaimer` (the keyword-match log entry is
statistics-only and dropped; the keyword literals are pairwise distinct, so
the set comprehension's cardinality equals the filter length). -/
def dcIsDisclaimer (text : Str) : Bool :=
  let lowered := lowerStr text
  let matched := disclaimerKeywords.filter (fun k => containsSub k.toList lowered)
  if 3 ≤ matched.length then true
  else boilerplateList.any (fun p => rxSearch p text)

/-! ## DeterministicContentCleaner (src/src/cleaners/deterministic_cleaner.py) -/

/-- Per-run audit counters of `self.audit_summary` (the `audit_log` list is
never appended to by the source and is omitted; the sub-cleaner statistics
added by `_aggregate_stats` stay zero during `clean`, which never calls the
sub-cleaners' own `clean`). -/
structure Audit where
  removed : Nat
  retained : Nat
  protected_count : Nat
  table_count : Nat
deriving DecidableEq

def initAudit : Audit := ⟨0, 0, 0, 0⟩

/-- `[\x00-\x08\x0B\x0C\x0E-\x1F\x7F]` (control characters stripped). -/
def isCtrlStrip (c : Char) : Bool :=
  c.toNat ≤ 8 || c.toNat = 11 || c.toNat = 12 ||
  (14 ≤ c.toNat && c.toNat ≤ 31) || c.toNat = 127

/-- `[​-‍﻿]` (invisible characters). -/
def isInvisible (c : Char) : Bool :=
  (0x200B ≤ c.toNat && c.toNat ≤ 0x200D) || c.toNat = 0xFEFF

/-- `_normalize_text`, with the external NFKC normalizer as a parameter. -/
def normalizeText (nfkc : Str → Str) (t : Str) : Str :=
  let t1 := nfkc t
  let t2 := t1.filter (fun c => ¬ isCtrlStrip c)
  let t3 := t2.filter (fun c => ¬ isInvisible c)
  let t4 := t3.filter (fun c => ¬ c.toNat = 0xAD)
  let t5 := t4.map (fun c => if c.toNat = 0x2028 || c.toNat = 0x2029 then '\n' else c)
  let t6 := t5.map (fun c => if c.toNat = 0xA0 then ' ' else c)
  t6.map (fun c => if c.toNat = 0x2011 then '-' else c)

/-- `re.match(r'(?i)^Cc\s*:', line_stripped)`. -/
def ccStartB (l : Str) : Bool :=
  match l with
  | c1 :: c2 :: rest =>
    lowerChar c1 = 'c' && lowerChar c2 = 'c' &&
      (rest.dropWhile isPySpace).head? = some ':'
  | _ => false

/-- `line_stripped.endswith((',', ';'))`. -/
def endsSepB (l : Str) : Bool :=
  l.getLast? = some ',' || l.getLast? = some ';'

/-- The line loop of `_preprocess_cc_removal`: kept lines and the number of
`Cc:` start lines (each start line bumps `removed` by one; continuation
lines are skipped without counting). -/
def ccProcess : Bool → List Str → List Str × Nat
  | _, [] => ([], 0)
  | skip, line :: rest =>
    let ls := strip line
    if ccStartB ls then
      let r := ccProcess true rest
      (r.1, r.2 + 1)
    else if skip && (hasEmailB ls || endsSepB ls) then
      ccProcess true rest
    else
      let r := ccProcess false rest
      (line :: r.1, r.2)

def ccText (t : Str) : Str := joinNl (ccProcess false (splitNl t)).1

def ccCount (t : Str) : Nat := (ccProcess false (splitNl t)).2

/-- `_preprocess_cc_removal` with the audit threaded. -/
def preprocessCcRemoval (t : Str) (a : Audit) : Str × Audit :=
  (ccText t, { a with removed := a.removed + ccCount t })

/-- `re.match` of `header_pattern` `(?i)^(From|To)\s*:` on the stripped line. -/
def ftStartB (l : Str) : Bool :=
  let low := lowerStr l
  ("from".toList.isPrefixOf low && ((low.drop 4).dropWhile isPySpace).head? = some ':')
  || ("to".toList.isPrefixOf low && ((low.drop 2).dropWhile isPySpace).head? = some ':')

/-- The line loop of `_preprocess_from_to_removal`: an empty stripped line
ends a block and is kept; continuation lines (email, separator, angle
bracket) are skipped without counting. -/
def ftProcess : Bool → List Str → List Str × Nat
  | _, [] => ([], 0)
  | skip, line :: rest =>
    let ls := strip line
    if ftStartB ls then
      let r := ftProcess true rest
      (r.1, r.2 + 1)
    else if skip && ¬ ls.isEmpty &&
        (hasEmailB ls || endsSepB ls || ls.contains '<' || ls.contains '>') then
      ftProcess true rest
    else
      let r := ftProcess false rest
      (line :: r.1, r.2)

def ftText (t : Str) : Str := joinNl (ftProcess false (splitNl t)).1

def ftCount (t : Str) : Nat := (ftProcess false (splitNl t)).2

/-- `_preprocess_from_to_removal` with the audit threaded. -/
def preprocessFromToRemoval (t : Str) (a : Audit) : Str × Audit :=
  (ftText t, { a with removed := a.removed + ftCount t })

/-- Least index at which `needle` occurs in `hay` (`re.search` of a literal). -/
def findSubIdx (needle : Str) : Str → Option Nat
  | [] => if needle.isPrefixOf ([] : Str) then some 0 else none
  | c :: t =>
    if needle.isPrefixOf (c :: t) then some 0
    else (findSubIdx needle t).map (· + 1)

/-- A lazy-dot chain `p₁.*?p₂.*?…` matches somewhere in `hay` (with DOTALL:
chaining each part after the first occurrence of the previous one is
complete, since later occurrences only shrink the remaining text). -/
def chainFrom : List Str → Str → Bool
  | [], _ => true
  | p :: rest, hay =>
    match findSubIdx p hay with
    | none => false
    | some i => chainFrom rest (hay.drop (i + p.length))

/-- `match.start()` of `re.search` for a marker `L₁.*?L₂.*?…` over lowered
text: the least position where `L₁` starts and the remaining parts follow in
order. -/
def markerIdxAux (l1 : Str) (rest : List Str) : Str → Option Nat
  | [] => if l1.isPrefixOf ([] : Str) && chainFrom rest [] then some 0 else none
  | c :: t =>
    if l1.isPrefixOf (c :: t) && chainFrom rest ((c :: t).drop l1.length) then some 0
    else (markerIdxAux l1 rest t).map (· + 1)

/-- `disclaimer_markers` of `_preprocess_disclaimer_removal`, lowercased and
split at the `.*?` operators (`re.IGNORECASE | re.DOTALL`). -/
def preMarkers : List (List Str) :=
  [[('t' :: "his e-mail message may contain confidential".toList)],
   ["this email".toList, "confidential".toList, "legally protected".toList],
   ["this email and any files transmitted".toList, "confidential".toList],
   ["this message contains confidential information".toList],
   ["any views or opinions presented in this email".toList],
   ["本电子邮件及其附件含有".toList, "保密信息".toList]]

/-- `end_markers` of `_preprocess_disclaimer_removal` (literal, lowercased). -/
def preEndMarkers : List Str :=
  ["confirmation of any transaction or contract".toList,
   "attachments are not intended as an offer".toList,
   "strictly prohibited".toList,
   "personally liable for any damages".toList,
   "actions taken on the basis of the information provided".toList]

/-- First marker in list order with a match anywhere; its match start. -/
def firstMarkerStart : List (List Str) → Str → Option Nat
  | [], _ => none
  | [] :: _, _ => some 0
  | (l1 :: rest) :: ms, low =>
    match markerIdxAux l1 rest low with
    | some i => some i
    | none => firstMarkerStart ms low

/-- First end marker in list order with a match; `end_match.end()`. -/
def firstEndIdx : List Str → Str → Option Nat
  | [], _ => none
  | m :: ms, low =>
    match findSubIdx m low with
    | some i => some (i + m.length)
    | none => firstEndIdx ms low

/-- `re.search(r'[.\n]', remainder)` over a 200-character window. -/
def findDotNl (l : Str) : Option Nat :=
  l.findIdx? (fun c => c = '.' || c = '\n')

/-- One iteration of the `while` loop of `_preprocess_disclaimer_removal`:
`none` when no marker matches; otherwise the new text and 1 when a block was
removed (the guard `end_pos > start_pos` always holds when a marker matched,
but is kept faithfully). -/
def discRemoveOnce (t : Str) : Option (Str × Nat) :=
  match firstMarkerStart preMarkers (lowerStr t) with
  | none => none
  | some start =>
    let suffix := t.drop start
    let end_pos :=
      match firstEndIdx preEndMarkers (lowerStr suffix) with
      | none => t.length
      | some e =>
        let ep := start + e
        match findDotNl ((t.drop ep).take 200) with
        | none => ep
        | some j => ep + j + 1
    if start < end_pos then some (t.take start ++ t.drop end_pos, 1)
    else some (t, 0)

/-- The bounded `while iteration < 10` loop. -/
def discLoop : Nat → Str → Str × Nat
  | 0, t => (t, 0)
  | fuel + 1, t =>
    match discRemoveOnce t with
    | none => (t, 0)
    | some (t1, k) =>
      let r := discLoop fuel t1
      (r.1, r.2 + k)

def discText (t : Str) : Str := (discLoop 10 t).1

def discCount (t : Str) : Nat := (discLoop 10 t).2

/-- `_preprocess_disclaimer_removal` with the audit threaded. -/
def preprocessDisclaimerRemoval (t : Str) (a : Audit) : Str × Audit :=
  (discText t, { a with removed := a.removed + discCount t })

/-- A whitespace-only line. -/
def blankLine (l : Str) : Bool := (strip l).isEmpty

/-- Maximal runs of non-blank lines, cut at each blank line. -/
def groupLines : List Str → List (List Str)
  | [] => [[]]
  | l :: rest =>
    if blankLine l then [] :: groupLines rest
    else
      match groupLines rest with
      | [] => [[l]]
      | g :: gs => (l :: g) :: gs

/-- `_segment_paragraphs`: `[p.strip() for p in re.split(r'\n\s*\n', text)
if p.strip()]`.  The separator `\n\s*\n` matches exactly inside the maximal
gaps of blank lines (each match starts at the first newline of a gap and,
greedily, ends at its last newline), so the split pieces are the maximal
runs of non-blank lines joined by `'\n'`, up to surrounding whitespace that
`strip` removes either way. -/
def segmentParagraphs (t : Str) : List Str :=
  (groupLines (splitNl t)).filterMap (fun g =>
    let p := strip (joinNl g)
    if p.isEmpty then none else some p)

/-- `r'\w{2,}\s{3,}\w{2,}'` (columnar alignment heuristic). -/
def alignRx : Rx :=
  rxSeqL [.rep isWordChar 2 none, .rep isPySpace 3 none, .rep isWordChar 2 none]

/-- `DeterministicContentCleaner._is_table`. -/
def isTable (text : Str) : Bool :=
  let lines := ((splitNl text).map strip).filter (fun l => ¬ l.isEmpty)
  if lines.isEmpty then false
  else
    let pipe_lines := (lines.filter (fun l => 2 ≤ (l.filter (fun c => c = '|')).length)).length
    if 2 ≤ pipe_lines then true
    else
      let alignment_lines := (lines.filter (fun l => rxSearch alignRx l || l.contains '\t')).length
      decide (1 < lines.length) && decide (lines.length ≤ 2 * alignment_lines)

/-- `PROTECTED_KEYWORDS`, compiled without flags (case-sensitive). -/
def protectedPatternList : List Rx :=
  [rxSeqL [.bnd, rxAltL [rcs "scheme", rcs "claim", rcs "invoice", rcs "bill",
     rcs "payment", rcs "fsn", rcs "sku",
     rxSeqL [rcs "po", .star isPySpace, .opt (rcs "#")],
     rcs "order", rcs "cn", rcs "dn", rcs "debit", rcs "credit"], .bnd],
   rxSeqL [.bnd, rcs "total", .rep isPySpace 1 none, rcs "amount", .bnd],
   rxSeqL [.bnd, rcs "vendor", .rep isPySpace 1 none, rcs "name", .bnd],
   rxSeqL [.bnd, rxAltL [rcs "product", rcs "model", rcs "brand", rcs "item", rcs "category"], .bnd],
   rxSeqL [.bnd, rxAltL [rcs "quantity", rcs "qty",
     .seq (rcs "unit") (.opt (rcs "s")), rcs "stock",
     .seq (rcs "piece") (.opt (rcs "s")), .seq (rcs "item") (.opt (rcs "s"))], .bnd],
   rxSeqL [.bnd, rxAltL [rcs "price", rcs "amount", rcs "cost", rcs "value", rcs "rate", rcs "margin"], .bnd],
   rxSeqL [.bnd, rxAltL [rcs "discount", rcs "rebate", rcs "commission", rcs "incentive"], .bnd],
   rxSeqL [.bnd, rxAltL [rcs "date", rcs "effective", rcs "deadline", rcs "due", rcs "valid", rcs "expiry"], .bnd],
   rxSeqL [.bnd, rxAltL [rcs "warehouse", rcs "delivery", rcs "shipping", rcs "truck",
     rcs "transport", rcs "dispatch", rcs "location", rcs "address"], .bnd],
   rxSeqL [.bnd, rxAltL [rcs "submit", rcs "provide", rcs "attach", rcs "send", rcs "upload", rcs "confirm"], .bnd],
   rxSeqL [.bnd, rxAltL [rcs "document", rcs "file", rcs "report", rcs "screenshot", rcs "attachment"], .bnd],
   rxSeqL [.bnd, rxAltL [rcs "contact", rcs "phone", rcs "email", rcs "mobile"], .bnd],
   rxSeqL [.bnd, rxAltL [rcs "serial", rcs "batch", rcs "lot", rcs "tracking", rcs "id"], .bnd],
   rxSeqL [.bnd, rxAltL [rcs "specification", rcs "spec",
     .seq (rcs "feature") (.opt (rcs "s")), .seq (rcs "detail") (.opt (rcs "s"))], .bnd],
   rxSeqL [.cls isCurrency, .star isPySpace, .cls isDigitB],
   rxSeqL [.rep isDigitB 1 none, .star isPySpace,
     rxAltL [.seq (rcs "unit") (.opt (rcs "s")), .seq (rcs "piece") (.opt (rcs "s")),
       .seq (rcs "kg") (.opt (rcs "s")), .seq (rcs "gram") (.opt (rcs "s")),
       .seq (rcs "litre") (.opt (rcs "s")), .seq (rcs "ton") (.opt (rcs "s"))]],
   rxSeqL [.rep isDigitB 1 (some 2), .cls isSlashDash, .rep isDigitB 1 (some 2),
     .cls isSlashDash, .rep isDigitB 2 (some 4)],
   rxSeqL [.rep isDigitB 1 (some 2), rcs ":", .rep isDigitB 2 (some 2),
     .star isPySpace, rxAltL [rcs "AM", rcs "PM"]],
   rxSeqL [.rep isDigitB 1 none, .opt (rcs "."), .star isDigitB, .star isPySpace, rcs "%"],
   rxSeqL [.bnd, .rep isUpperB 2 (some 4), rcs "-", .rep isDigitB 3 none]]

/-- `DeterministicContentCleaner._is_protected`: strip email addresses
first, then any protected pattern protects. -/
def isProtected (text : Str) : Bool :=
  let text_no_emails := removeEmails text
  protectedPatternList.any (fun p => rxSearch p text_no_emails)

/-- Table check first, then protection check (`clean`, step 4). -/
def paraProtected (p : Str) : Bool := isTable p || isProtected p

/-- A paragraph is removed by `_clean_with_cc_footer` when it is a header
or (else) a footer. -/
def hfNoise (p : Str) : Bool := ccfIsHeader p || ccfIsFooter p

/-- Text result of `_clean_with_cc_footer`. -/
def hfText (t : Str) : Str :=
  if (strip t).isEmpty then t
  else List.intercalate nn ((segmentParagraphs t).filter (fun p => ¬ hfNoise p))

/-- Number of paragraphs `_clean_with_cc_footer` removes. -/
def hfRemovedCount (t : Str) : Nat :=
  if (strip t).isEmpty then 0
  else ((segmentParagraphs t).filter hfNoise).length

/-- Number of paragraphs `_clean_with_cc_footer` retains. -/
def hfRetainedCount (t : Str) : Nat :=
  if (strip t).isEmpty then 0
  else ((segmentParagraphs t).filter (fun p => ¬ hfNoise p)).length

/-- `_clean_with_cc_footer`: drop header/footer paragraphs of the cleanable
text, counting removals and retentions. -/
def cleanWithCcFooter (t : Str) (a : Audit) : Str × Audit :=
  (hfText t,
   { a with removed := a.removed + hfRemovedCount t,
            retained := a.retained + hfRetainedCount t })

/-- Text result of `_clean_with_disclaimer`. -/
def dcText (t : Str) : Str :=
  if (strip t).isEmpty then t
  else List.intercalate nn ((segmentParagraphs t).filter (fun p => ¬ dcIsDisclaimer p))

/-- Number of paragraphs `_clean_with_disclaimer` removes. -/
def dcRemovedCount (t : Str) : Nat :=
  if (strip t).isEmpty then 0
  else ((segmentParagraphs t).filter dcIsDisclaimer).length

/-- `_clean_with_disclaimer`: drop disclaimer paragraphs, counting removals
only (kept paragraphs are not re-counted as retained here). -/
def cleanWithDisclaimer (t : Str) (a : Audit) : Str × Audit :=
  (dcText t, { a with removed := a.removed + dcRemovedCount t })

/-- Python `cleanable_text.split('\n\n')` (plain string split). -/
def splitNN : Str → List Str
  | [] => [[]]
  | '\n' :: '\n' :: rest => [] :: splitNN rest
  | c :: rest =>
    match splitNN rest with
    | [] => [[c]]
    | l :: ls => (c :: l) :: ls

/-- The text after normalization and the three pre-segmentation removal
stages (steps 1–2 of `clean`). -/
def preprocessedText (nfkc : Str → Str) (text : Str) : Str :=
  discText (ftText (ccText (normalizeText nfkc text)))

/-- The paragraphs obtained at step 3 of `clean` (segmentation of the
preprocessed text). -/
def segParasOf (nfkc : Str → Str) (text : Str) : List Str :=
  segmentParagraphs (preprocessedText nfkc text)

/-- The `'\n\n'`-joined cleanable text of step 5 of `clean`. -/
def cleanableTextOf (nfkc : Str → Str) (text : Str) : Str :=
  List.intercalate nn ((segParasOf nfkc text).filter (fun p => ¬ paraProtected p))

/-- The `removed` counter contribution of the three pre-segmentation stages. -/
def preRemovedOf (nfkc : Str → Str) (text : Str) : Nat :=
  ccCount (normalizeText nfkc text) + ftCount (ccText (normalizeText nfkc text)) +
    discCount (ftText (ccText (normalizeText nfkc text)))

/-- The final paragraph list assembled at step 6 of `clean`: protected
paragraphs in order, then the surviving cleanable text split back into
paragraphs if non-blank. -/
def cleanFinalParas (nfkc : Str → Str) (text : Str) : List Str :=
  let paras := segParasOf nfkc text
  let prot := paras.filter paraProtected
  let ct := dcText (hfText (cleanableTextOf nfkc text))
  prot ++ (if (strip ct).isEmpty then [] else splitNN ct)

/-- `DeterministicContentCleaner.clean` on a fresh instance: cleaned text and
final audit counters.  `_aggregate_stats` adds the sub-cleaners' per-call
`paragraphs_removed` counters, which remain zero during `clean`. -/
def clean (nfkc : Str → Str) (text : Str) : Str × Audit :=
  if text.isEmpty then ([], initAudit)
  else
    let t1 := normalizeText nfkc text
    let pa := preprocessCcRemoval t1 initAudit
    let pb := preprocessFromToRemoval pa.1 pa.2
    let pc := preprocessDisclaimerRemoval pb.1 pb.2
    let paras := segmentParagraphs pc.1
    if paras.isEmpty then ([], pc.2)
    else
      let prot := paras.filter paraProtected
      let cleanable := paras.filter (fun p => ¬ paraProtected p)
      let a5 : Audit :=
        { pc.2 with
          retained := pc.2.retained + prot.length,
          table_count := pc.2.table_count + (paras.filter isTable).length,
          protected_count :=
            pc.2.protected_count + (paras.filter (fun p => ¬ isTable p && isProtected p)).length }
      let q1 := cleanWithCcFooter (List.intercalate nn cleanable) a5
      let q2 := cleanWithDisclaimer q1.1 q1.2
      let final := prot ++ (if (strip q2.1).isEmpty then [] else splitNN q2.1)
      (List.intercalate nn final, q2.2)

/-! ## get_cleaning_stats -/

/-- Python division as a fallible operation. -/
def pyDivQ (a b : ℚ) : Except String ℚ :=
  if b = 0 then .error "ZeroDivisionError" else .ok (a / b)

/-- Round half to even (Python `round` on the exact rational value). -/
def roundHalfEven (q : ℚ) : ℤ :=
  let d : ℤ := (q.den : ℤ)
  let f : ℤ := Int.fdiv q.num d
  let r : ℤ := q.num - f * d
  if 2 * r < d then f
  else if d < 2 * r then f + 1
  else if f % 2 = 0 then f else f + 1

/-- Python `round(x, 2)`. -/
def round2 (q : ℚ) : ℚ := (roundHalfEven (q * 100) : ℚ) / 100

structure CleaningStats where
  original_length : Nat
  cleaned_length : Nat
  reduction_chars : Int
  reduction_percent : ℚ
deriving DecidableEq

/-- `DeterministicContentCleaner.get_cleaning_stats` (`len(s) if s else 0`
equals `len(s)`; the division is guarded by `orig_len > 0`). -/
def get_cleaning_stats (original cleaned : Str) : Except String CleaningStats :=
  let orig_len := original.length
  let clean_len := cleaned.length
  let reduction : Int := (orig_len : Int) - (clean_len : Int)
  if 0 < orig_len then
    match pyDivQ (reduction : ℚ) (orig_len : ℚ) with
    | .error e => .error e
    | .ok q => .ok ⟨orig_len, clean_len, reduction, round2 (q * 100)⟩
  else
    .ok ⟨orig_len, clean_len, reduction, 0⟩

/-! ## Derived notions used in the statements -/

/-- A result carries a non-empty `fields` map or a non-empty `products` list. -/
def hasNonemptyFieldsOrProducts (cr : ConfigResult) : Bool :=
  (match oGet? cr "fields" with
   | some (.fmap m) => ¬ m.isEmpty
   | _ => false) ||
  (match oGet? cr "products" with
   | some (.plist l) => ¬ l.isEmpty
   | _ => false)

/-- The (type, subtype) pairs of the §3 taxonomy that dispatch to a product
generator in the source (SELL_SIDE/BOC has none). -/
def taxonomyPairs : List (String × String) :=
  [("PDC", "PDC"), ("BUY_SIDE", "PERIODIC_CLAIM"), ("BUY_SIDE", "PDC"),
   ("SELL_SIDE", "CP"), ("SELL_SIDE", "PUC"), ("SELL_SIDE", "PRX"),
   ("SELL_SIDE", "SC"), ("SELL_SIDE", "LS")]

/-- The shape every paragraph produced by `segmentParagraphs` has: non-empty,
stripped, and with no whitespace-only line. -/
def ParaGood (p : Str) : Prop :=
  p ≠ [] ∧ strip p = p ∧ ∀ l ∈ splitNl p, blankLine l = false

/-! # Theorems

Support lemmas first, then one theorem per claim (with counterexamples and
witnesses where applicable). -/

section ConfigLemmas

lemma ofc_prefix_not_registered (s : String) :
    ("OFC" ++ "_" ++ s) ∉ registeredGenNames := by
  intro h
  simp only [registeredGenNames, List.mem_cons, List.not_mem_nil, or_false] at h
  rcases h with h | h | h | h | h | h | h <;>
    simpa [String.data_append] using congrArg String.data h

lemma one_off_prefix_not_registered (s : String) :
    ("ONE_OFF" ++ "_" ++ s) ∉ registeredGenNames := by
  intro h
  simp only [registeredGenNames, List.mem_cons, List.not_mem_nil, or_false] at h
  rcases h with h | h | h | h | h | h | h <;>
    simpa [String.data_append] using congrArg String.data h

end ConfigLemmas

/-- Claim C5, counterexample: on the empty string `classify` takes the
default branch and returns scheme type `SELL_SIDE` with subtype `PUC/FDC`,
which is not a member of the claimed SELL_SIDE subtype set
`{CP, PUC, PRX, SC, BOC, LS}` — the literal subtype names returned by the
code differ from the taxonomy codes of §3. -/
theorem C5_counterexample :
    (classify []).1 = "SELL_SIDE" ∧
    (classify []).2.1 = "PUC/FDC" ∧
    ¬ (classify []).2.1 ∈ (["CP", "PUC", "PRX", "SC", "BOC", "LS"] : List String) := by
  refine ⟨rfl, rfl, ?_⟩
  decide

/-- Claim C5, amended: for every input (the empty string included)
`classify` returns a (type, subtype) pair from the closed eight-element set
`{(ONE_OFF, N/A), (BUY_SIDE, PDC), (BUY_SIDE, PERIODIC_CLAIM),
(SELL_SIDE, BANK OFFER), (SELL_SIDE, COUPON), (SELL_SIDE, SUPER COIN),
(SELL_SIDE, PREXO), (SELL_SIDE, PUC/FDC)}` — never an arbitrary string —
and the empty string takes the default branch, returning
(SELL_SIDE, PUC/FDC). -/
theorem C5_classify_closed_taxonomy (text : Str) :
    ((classify text).1, (classify text).2.1) ∈
      ([("ONE_OFF", "N/A"), ("BUY_SIDE", "PDC"), ("BUY_SIDE", "PERIODIC_CLAIM"),
        ("SELL_SIDE", "BANK OFFER"), ("SELL_SIDE", "COUPON"),
        ("SELL_SIDE", "SUPER COIN"), ("SELL_SIDE", "PREXO"),
        ("SELL_SIDE", "PUC/FDC")] : List (String × String)) ∧
    classify [] = ("SELL_SIDE", "PUC/FDC",
      "No specific keywords found. Defaulting to SELL_SIDE → PUC/FDC") := by
  constructor
  · unfold classify
    dsimp only
    split_ifs <;> simp
  · rfl

/-- Claim C1, counterexample: for
`{"scheme_type": "SELL_SIDE", "scheme_subtype": "ZZZ"}` — a pair with no
registered generator — `generate_config` falls into the `SELL_SIDE` branch,
matches none of its subtype cases, and returns the empty dict `{}`: the
result does not contain an `error` key. -/
theorem C1_counterexample :
    generate_config [("scheme_type", .str "SELL_SIDE"), ("scheme_subtype", .str "ZZZ")] none
      = [] ∧
    oHasKey (generate_config
      [("scheme_type", .str "SELL_SIDE"), ("scheme_subtype", .str "ZZZ")] none) "error"
      = false := by
  constructor
  · decide
  · decide

/-- Claim C1, amended: only a field bag whose scheme type is none of
`PDC`/`BUY_SIDE`/`SELL_SIDE`/`OFC` (and whose pair has no registered
generator) yields the explicit error-tagged result; a `BUY_SIDE` or
`SELL_SIDE` bag with an unrecognized subtype instead yields the empty
result `{}`, which carries no `error`, `fields` or `products` key.  No
branch raises. -/
theorem C1_unknown_scheme (fields : FieldBag) (t s : String)
    (ht : dictGetD fields "scheme_type" (.str "") = .str t)
    (hs : dictGetD fields "scheme_subtype" (.str "") = .str s)
    (hreg : ¬ (t ++ "_" ++ s) ∈ registeredGenNames) :
    (¬ t ∈ (["PDC", "BUY_SIDE", "SELL_SIDE", "OFC"] : List String) →
      generate_config fields none =
        [("error", .str ("Unknown scheme configuration for " ++ t ++ " - " ++ s))]) ∧
    (t = "BUY_SIDE" → ¬ s ∈ (["PERIODIC_CLAIM", "PDC"] : List String) →
      generate_config fields none = []) ∧
    (t = "SELL_SIDE" → ¬ s ∈ (["CP", "PUC", "PRX", "SC", "LS"] : List String) →
      generate_config fields none = []) := by
  have hattr : hasattrGenName (.str t) (.str s) = none := by
    simp [hasattrGenName, hreg]
  refine ⟨?_, ?_, ?_⟩
  · intro h1
    simp only [List.mem_cons, List.not_mem_nil, or_false, not_or] at h1
    obtain ⟨h1a, h1b, h1c, h1d⟩ := h1
    unfold generate_config
    dsimp only
    rw [ht, hs]
    have herr : isErrorBag (.str t) (.str s) = true := by
      simp [isErrorBag, hattr, h1a, h1b, h1c, h1d]
    simp [herr, pyFmt]
  · intro h2 hsub
    subst h2
    simp only [List.mem_cons, List.not_mem_nil, or_false, not_or] at hsub
    obtain ⟨hb1, hb2⟩ := hsub
    unfold generate_config
    dsimp only
    rw [ht, hs]
    have herr : isErrorBag (.str "BUY_SIDE") (.str s) = false := by
      simp [isErrorBag]
    have hof : isOfcBag (.str "BUY_SIDE") = false := by
      simp [isOfcBag]
    simp [herr, hof, dispatchConfig, hattr, hb1, hb2, multiProduct, oGet?, aGet?]
  · intro h3 hsub
    subst h3
    simp only [List.mem_cons, List.not_mem_nil, or_false, not_or] at hsub
    obtain ⟨hc1, hc2, hc3, hc4, hc5⟩ := hsub
    unfold generate_config
    dsimp only
    rw [ht, hs]
    have herr : isErrorBag (.str "SELL_SIDE") (.str s) = false := by
      simp [isErrorBag]
    have hof : isOfcBag (.str "SELL_SIDE") = false := by
      simp [isOfcBag]
    simp [herr, hof, dispatchConfig, hattr, hc1, hc2, hc3, hc4, hc5, multiProduct, oGet?, aGet?]

/-- Claim C1, witness: the amended theorem applied at
`{"scheme_type": "XX", "scheme_subtype": "YY"}` (no matching branch: error
result) and `{"scheme_type": "SELL_SIDE", "scheme_subtype": "QQ"}` (empty
result). -/
theorem C1_witness :
    generate_config [("scheme_type", .str "XX"), ("scheme_subtype", .str "YY")] none =
      [("error", .str "Unknown scheme configuration for XX - YY")] ∧
    generate_config [("scheme_type", .str "SELL_SIDE"), ("scheme_subtype", .str "QQ")] none
      = [] := by
  constructor
  · exact (C1_unknown_scheme
      [("scheme_type", .str "XX"), ("scheme_subtype", .str "YY")] "XX" "YY"
      (by decide) (by decide) (by decide)).1 (by decide)
  · exact (C1_unknown_scheme
      [("scheme_type", .str "SELL_SIDE"), ("scheme_subtype", .str "QQ")] "SELL_SIDE" "QQ"
      (by decide) (by decide) (by decide)).2.2 rfl (by decide)

section DisclaimerLemmas

lemma markerIdxAux_lt {l1 : Str} {rest : List Str} {hay : Str} {i : Nat}
    (h1 : l1 ≠ []) (h : markerIdxAux l1 rest hay = some i) : i < hay.length := by
  induction hay generalizing i with
  | nil =>
    unfold markerIdxAux at h
    cases l1 with
    | nil => exact absurd rfl h1
    | cons a b => simp [List.isPrefixOf] at h
  | cons c t ih =>
    unfold markerIdxAux at h
    by_cases hc : (l1.isPrefixOf (c :: t) && chainFrom rest ((c :: t).drop l1.length)) = true
    · rw [if_pos hc] at h
      cases h
      simp
    · rw [if_neg hc] at h
      cases hj : markerIdxAux l1 rest t with
      | none => rw [hj] at h; simp at h
      | some j =>
        rw [hj] at h
        have hji : j + 1 = i := by simpa using h
        have h2 := ih hj
        simp only [List.length_cons]
        omega

lemma firstMarkerStart_lt_of (ms : List (List Str))
    (hms : ∀ p ∈ ms, ∃ l1 rest, p = l1 :: rest ∧ l1 ≠ []) {low : Str} {i : Nat}
    (h : firstMarkerStart ms low = some i) : i < low.length := by
  induction ms with
  | nil => simp [firstMarkerStart] at h
  | cons m ms ih =>
    obtain ⟨l1, rest, rfl, hl1⟩ := hms m (List.mem_cons_self m ms)
    unfold firstMarkerStart at h
    cases hm : markerIdxAux l1 rest low with
    | some j =>
      rw [hm] at h
      cases h
      exact markerIdxAux_lt hl1 hm
    | none =>
      rw [hm] at h
      exact ih (fun p hp => hms p (List.mem_cons_of_mem _ hp)) h

lemma lowerStr_length (t : Str) : (lowerStr t).length = t.length :=
  List.length_map t lowerChar

lemma firstMarkerStart_lt {t : Str} {i : Nat}
    (h : firstMarkerStart preMarkers (lowerStr t) = some i) : i < t.length := by
  have := firstMarkerStart_lt_of preMarkers ?_ h
  · rwa [lowerStr_length] at this
  · intro p hp
    fin_cases hp <;> exact ⟨_, _, rfl, by decide⟩

end DisclaimerLemmas

/-- Claim C4, counterexample: in the input
`"Hello\n\nThis message contains confidential information about the scheme"`
a disclaimer start marker matches at index 7 and no end marker occurs
anywhere after it, yet the block-removal stage does not leave the text
unremoved: it removes everything from the marker to the end of the
document, returning `"Hello\n\n"`. -/
theorem C4_counterexample :
    firstMarkerStart preMarkers (lowerStr
      "Hello\n\nThis message contains confidential information about the scheme".toList)
      = some 7 ∧
    firstEndIdx preEndMarkers (lowerStr
      ("Hello\n\nThis message contains confidential information about the scheme".toList.drop 7))
      = none ∧
    discText "Hello\n\nThis message contains confidential information about the scheme".toList
      = "Hello\n\n".toList := by
  refine ⟨by decide, by decide, by decide⟩

/-- Claim C4, amended: when a disclaimer start marker matches at position
`i` and no end marker is found anywhere after it, the loop iteration of the
block-removal stage removes from the marker through the end of the document
(keeping only the first `i` characters), rather than leaving the text
unremoved. -/
theorem C4_no_end_marker (t : Str) (i : Nat)
    (hm : firstMarkerStart preMarkers (lowerStr t) = some i)
    (he : firstEndIdx preEndMarkers (lowerStr (t.drop i)) = none) :
    discRemoveOnce t = some (t.take i, 1) := by
  unfold discRemoveOnce
  rw [hm]
  dsimp only
  rw [he]
  rw [if_pos (firstMarkerStart_lt hm)]
  simp

/-- Claim C4, witness: the amended theorem applied at a concrete marker-only
input; the stage truncates at the marker. -/
theorem C4_witness :
    discRemoveOnce "Hi\n\nThis message contains confidential information xyz".toList =
      some ("Hi\n\n".toList, 1) := by
  have h := C4_no_end_marker
    "Hi\n\nThis message contains confidential information xyz".toList 4
    (by decide) (by decide)
  simpa using h

/-- Claim C9: `get_cleaning_stats` always returns (never raises): the
original and cleaned character counts, the character reduction, and the
percentage reduction rounded to two decimals — with an empty original
producing a 0 percentage instead of a division-by-zero error (the division
is modelled as fallible and is reached only under the `orig_len > 0`
guard). -/
theorem C9_cleaning_stats (original cleaned : Str) :
    get_cleaning_stats original cleaned =
      .ok { original_length := original.length,
            cleaned_length := cleaned.length,
            reduction_chars := (original.length : Int) - (cleaned.length : Int),
            reduction_percent :=
              if 0 < original.length then
                round2 (((((original.length : Int) - (cleaned.length : Int)) : ℚ) /
                  (original.length : ℚ)) * 100)
              else 0 } := by
  by_cases h : 0 < original.length
  · have hz : ¬ ((original.length : ℚ) = 0) := by
      simp only [Nat.cast_eq_zero]
      omega
    simp [get_cleaning_stats, pyDivQ, h, hz]
  · simp [get_cleaning_stats, pyDivQ, h]

section AssocLemmas

variable {β : Type}

lemma aGet?_nil (k : String) : aGet? ([] : List (String × β)) k = none := rfl

lemma aGet?_cons (pk : String) (pv : β) (rest : List (String × β)) (k : String) :
    aGet? ((pk, pv) :: rest) k = if pk = k then some pv else aGet? rest k := rfl

lemma aGet?_eq_none_of_not_any (m : List (String × β)) (k : String)
    (h : m.any (fun p => p.1 = k) = false) : aGet? m k = none := by
  induction m with
  | nil => rfl
  | cons p rest ih =>
    obtain ⟨pk, pv⟩ := p
    simp only [List.any_cons, Bool.or_eq_false_iff] at h
    rw [aGet?_cons, if_neg (by simpa using h.1)]
    exact ih h.2

lemma aGet?_append_of_none (m m2 : List (String × β)) (k : String)
    (h : aGet? m k = none) : aGet? (m ++ m2) k = aGet? m2 k := by
  induction m with
  | nil => rfl
  | cons p rest ih =>
    obtain ⟨pk, pv⟩ := p
    rw [aGet?_cons] at h
    rw [List.cons_append, aGet?_cons]
    by_cases hp : pk = k
    · rw [if_pos hp] at h
      cases h
    · rw [if_neg hp] at h ⊢
      exact ih h

lemma aGet?_map_set (m : List (String × β)) (k : String) (v : β)
    (h : m.any (fun p => p.1 = k) = true) :
    aGet? (m.map (fun p => if p.1 = k then (k, v) else p)) k = some v := by
  induction m with
  | nil => simp at h
  | cons p rest ih =>
    obtain ⟨pk, pv⟩ := p
    by_cases hp : pk = k
    · simp only [List.map_cons, if_pos hp]
      rw [aGet?_cons, if_pos rfl]
    · simp only [List.any_cons] at h
      have h2 : rest.any (fun p => p.1 = k) = true := by
        rcases Bool.or_eq_true_iff.mp h with h1 | h1
        · exact absurd (of_decide_eq_true h1) hp
        · exact h1
      simp only [List.map_cons]
      rw [if_neg hp, aGet?_cons, if_neg hp]
      exact ih h2

lemma aGet?_aSet_self (m : List (String × β)) (k : String) (v : β) :
    aGet? (aSet m k v) k = some v := by
  unfold aSet
  split
  · exact aGet?_map_set m k v (by assumption)
  · rename_i h
    rw [aGet?_append_of_none m [(k, v)] k
      (aGet?_eq_none_of_not_any m k (Bool.eq_false_iff.mpr h))]
    rw [aGet?_cons, if_pos rfl]

lemma aGet?_map_ne (m : List (String × β)) (k k2 : String) (v : β)
    (h : ¬ k2 = k) :
    aGet? (m.map (fun p => if p.1 = k then (k, v) else p)) k2 = aGet? m k2 := by
  induction m with
  | nil => rfl
  | cons p rest ih =>
    obtain ⟨pk, pv⟩ := p
    by_cases hp : pk = k
    · simp only [List.map_cons]
      rw [if_pos hp, aGet?_cons, aGet?_cons,
        if_neg (fun hk : k = k2 => h hk.symm),
        if_neg (fun hk : pk = k2 => h (hp ▸ hk : k = k2).symm)]
      exact ih
    · simp only [List.map_cons]
      rw [if_neg hp, aGet?_cons, aGet?_cons]
      by_cases hpk : pk = k2
      · rw [if_pos hpk, if_pos hpk]
      · rw [if_neg hpk, if_neg hpk]
        exact ih

lemma aGet?_append_single_ne (m : List (String × β)) (k k2 : String) (v : β)
    (h : ¬ k2 = k) : aGet? (m ++ [(k, v)]) k2 = aGet? m k2 := by
  induction m with
  | nil =>
    rw [List.nil_append, aGet?_cons, if_neg (fun hk : k = k2 => h hk.symm)]
  | cons p rest ih =>
    obtain ⟨pk, pv⟩ := p
    rw [List.cons_append, aGet?_cons, aGet?_cons]
    by_cases hpk : pk = k2
    · rw [if_pos hpk, if_pos hpk]
    · rw [if_neg hpk, if_neg hpk]
      exact ih

lemma aGet?_aSet_ne (m : List (String × β)) (k k2 : String) (v : β)
    (h : ¬ k2 = k) : aGet? (aSet m k v) k2 = aGet? m k2 := by
  unfold aSet
  split
  · exact aGet?_map_ne m k k2 v h
  · exact aGet?_append_single_ne m k k2 v h

lemma aGet?_aDel_ne (m : List (String × β)) (k k2 : String)
    (h : ¬ k2 = k) : aGet? (aDel m k) k2 = aGet? m k2 := by
  induction m with
  | nil => rfl
  | cons p rest ih =>
    obtain ⟨pk, pv⟩ := p
    unfold aDel at ih ⊢
    by_cases hp : pk = k
    · rw [List.filter_cons_of_neg (by simpa using hp)]
      rw [aGet?_cons, if_neg (fun hk : pk = k2 => h (hp ▸ hk : k = k2).symm)]
      exact ih
    · rw [List.filter_cons_of_pos (by simpa using hp)]
      rw [aGet?_cons, aGet?_cons]
      by_cases hpk : pk = k2
      · rw [if_pos hpk, if_pos hpk]
      · rw [if_neg hpk, if_neg hpk]
        exact ih

lemma aGet?_aDel_self (m : List (String × β)) (k : String) :
    aGet? (aDel m k) k = none := by
  induction m with
  | nil => rfl
  | cons p rest ih =>
    obtain ⟨pk, pv⟩ := p
    unfold aDel at ih ⊢
    by_cases hp : pk = k
    · rw [List.filter_cons_of_neg (by simpa using hp)]
      exact ih
    · rw [List.filter_cons_of_pos (by simpa using hp)]
      rw [aGet?_cons, if_neg hp]
      exact ih

lemma aSet_ne_nil (m : List (String × β)) (k : String) (v : β) :
    aSet m k v ≠ [] := by
  unfold aSet
  split
  · rename_i h
    intro hc
    rw [List.map_eq_nil_iff] at hc
    subst hc
    simp at h
  · simp

end AssocLemmas

section ConfigPipelineLemmas

lemma hasattr_ofc_none (ss : PyVal) : hasattrGenName (.str "OFC") ss = none := by
  cases ss with
  | str s =>
    show (if ("OFC" ++ "_" ++ s) ∈ registeredGenNames
      then some ("OFC" ++ "_" ++ s) else none) = none
    rw [if_neg (ofc_prefix_not_registered s)]
  | strList l => rfl

lemma hasattr_one_off_none (ss : PyVal) : hasattrGenName (.str "ONE_OFF") ss = none := by
  cases ss with
  | str s =>
    show (if ("ONE_OFF" ++ "_" ++ s) ∈ registeredGenNames
      then some ("ONE_OFF" ++ "_" ++ s) else none) = none
    rw [if_neg (one_off_prefix_not_registered s)]
  | strList l => rfl

lemma fsnIter_ne_nil (v : Option PyVal) : fsnIter v ≠ [] := by
  cases v with
  | none => simp [fsnIter]
  | some pv =>
    cases pv with
    | str s =>
      show (if s = "" then ["Populate from FSN File"]
        else s.toList.map (fun c => String.mk [c])) ≠ []
      split
      · simp
      · rename_i hs
        intro hc
        rw [List.map_eq_nil_iff] at hc
        exact hs (String.ext (by simpa using hc))
    | strList l =>
      show (if l = [] then ["Populate from FSN File"] else l) ≠ []
      split
      · simp
      · assumption

lemma dispatchConfig_nil_of_error (st ss : PyVal) (fields : FieldBag)
    (h : isErrorBag st ss = true) : dispatchConfig st ss fields = [] := by
  unfold isErrorBag at h
  simp only [Bool.and_eq_true, decide_eq_true_eq] at h
  obtain ⟨⟨⟨⟨h1, h2⟩, h3⟩, h4⟩, h5⟩ := h
  rw [Option.isNone_iff_eq_none] at h2
  unfold dispatchConfig
  rw [if_neg h1, h2]
  simp [h3, h4]

lemma dispatchConfig_nil_ofc (ss : PyVal) (fields : FieldBag) :
    dispatchConfig (.str "OFC") ss fields = [] := by
  unfold dispatchConfig
  rw [if_neg (by simp), hasattr_ofc_none ss]
  simp

lemma generate_config_eq_multi (fields : FieldBag)
    (herr : isErrorBag (dictGetD fields "scheme_type" (.str ""))
      (dictGetD fields "scheme_subtype" (.str "")) = false)
    (hofc : ¬ dictGetD fields "scheme_type" (.str "") = .str "OFC") :
    generate_config fields none =
      multiProduct (dispatchConfig (dictGetD fields "scheme_type" (.str ""))
        (dictGetD fields "scheme_subtype" (.str "")) fields)
        (fsnIter (dictGet? fields "resolved_fsns")) := by
  unfold generate_config
  dsimp only
  rw [if_neg (by simp [herr]), if_neg (by simp [isOfcBag, hofc])]

lemma multiProduct_nil (fsns : List String) : multiProduct [] fsns = [] := by
  unfold multiProduct oGet?
  rfl

lemma multiProduct_products (cr : ConfigResult) (base : FMap) (fsns : List String)
    (h : oGet? cr "fields" = some (.fmap base)) (h2 : 2 ≤ fsns.length) :
    oGet? (multiProduct cr fsns) "products" =
      some (.plist (fsns.map (fun fsn => fSet base "ProductId" (.str fsn)))) ∧
    oGet? (multiProduct cr fsns) "fields" = none := by
  unfold multiProduct
  rw [h]
  dsimp only
  rw [if_pos (by rw [List.length_map]; omega)]
  constructor
  · unfold oDel oSet oGet?
    rw [aGet?_aDel_ne _ _ _ (by decide), aGet?_aSet_self]
  · unfold oDel oGet?
    rw [aGet?_aDel_self]

lemma multiProduct_single (cr : ConfigResult) (base : FMap) (f0 : String)
    (h : oGet? cr "fields" = some (.fmap base)) :
    multiProduct cr [f0] = oSet cr "fields" (.fmap (fSet base "ProductId" (.str f0))) := by
  unfold multiProduct
  rw [h]
  dsimp only
  simp

lemma hasNE_multiProduct (cr : ConfigResult) (base : FMap) (fsns : List String)
    (h : oGet? cr "fields" = some (.fmap base)) (hf : fsns ≠ []) :
    hasNonemptyFieldsOrProducts (multiProduct cr fsns) = true := by
  rcases fsns with _ | ⟨f0, rest⟩
  · exact absurd rfl hf
  · rcases rest with _ | ⟨f1, rest2⟩
    · rw [multiProduct_single cr base f0 h]
      unfold hasNonemptyFieldsOrProducts
      have hq : oGet? (oSet cr "fields" (.fmap (fSet base "ProductId" (.str f0)))) "fields"
          = some (.fmap (fSet base "ProductId" (.str f0))) := aGet?_aSet_self cr "fields" _
      rw [hq]
      have : (fSet base "ProductId" (.str f0)).isEmpty = false := by
        rw [List.isEmpty_eq_false_iff_exists_mem]
        have := aSet_ne_nil base "ProductId" (PyVal.str f0)
        rcases hx : aSet base "ProductId" (PyVal.str f0) with _ | ⟨q, qs⟩
        · exact absurd hx this
        · exact ⟨q, by rw [fSet, hx]; simp⟩
      simp [this]
    · have := multiProduct_products cr base (f0 :: f1 :: rest2) h (by simp)
      unfold hasNonemptyFieldsOrProducts
      rw [this.1, this.2]
      simp

lemma hasNE_multiProduct_ex (cr : ConfigResult) (fsns : List String)
    (h : ∃ base, oGet? cr "fields" = some (.fmap base)) (hf : fsns ≠ []) :
    hasNonemptyFieldsOrProducts (multiProduct cr fsns) = true := by
  obtain ⟨base, hb⟩ := h
  exact hasNE_multiProduct cr base fsns hb hf

end ConfigPipelineLemmas

/-- Claim C6, counterexample: a field bag spelling the one-off type as
`ONE_OFF` (the spelling the classifier produces) reaches the error branch,
not the `info` stub — only the spelling `OFC` is recognized; and the
taxonomy pair SELL_SIDE/BOC, which has no generator, yields the empty
result rather than a non-empty `fields`/`products` key. -/
theorem C6_counterexample :
    generate_config [("scheme_type", .str "ONE_OFF"), ("scheme_subtype", .str "N/A")] none =
      [("error", .str "Unknown scheme configuration for ONE_OFF - N/A")] ∧
    generate_config [("scheme_type", .str "SELL_SIDE"), ("scheme_subtype", .str "BOC")] none
      = [] := by
  exact ⟨by decide, by decide⟩

/-- Claim C6, amended: a bag whose scheme type is the literal `OFC` returns
the stub result carrying only the `info` key; a bag with scheme type
`ONE_OFF` instead returns the error-tagged result (without `fields` or
`products`); every taxonomy pair that has a generator — PDC and the seven
`_gen_`-registered pairs — yields a result with a non-empty `fields` or
`products` key; and SELL_SIDE/BOC, in the §3 taxonomy but without a
generator, yields the empty result. -/
theorem C6_one_off_stub_and_coverage :
    (∀ fields : FieldBag,
      dictGetD fields "scheme_type" (.str "") = .str "OFC" →
      generate_config fields none = [("info", .str "No FSN Config required for OFC")]) ∧
    (∀ fields : FieldBag,
      dictGetD fields "scheme_type" (.str "") = .str "ONE_OFF" →
      oHasKey (generate_config fields none) "error" = true ∧
      oHasKey (generate_config fields none) "fields" = false ∧
      oHasKey (generate_config fields none) "products" = false) ∧
    (∀ fields : FieldBag, ∀ ts : String × String, ts ∈ taxonomyPairs →
      dictGetD fields "scheme_type" (.str "") = .str ts.1 →
      dictGetD fields "scheme_subtype" (.str "") = .str ts.2 →
      hasNonemptyFieldsOrProducts (generate_config fields none) = true) ∧
    (∀ fields : FieldBag,
      dictGetD fields "scheme_type" (.str "") = .str "SELL_SIDE" →
      dictGetD fields "scheme_subtype" (.str "") = .str "BOC" →
      generate_config fields none = []) := by
  refine ⟨?_, ?_, ?_, ?_⟩
  · intro fields ht
    unfold generate_config
    dsimp only
    rw [ht]
    have herr : isErrorBag (.str "OFC")
        (dictGetD fields "scheme_subtype" (.str "")) = false := by
      simp [isErrorBag]
    rw [if_neg (by simp [herr])]
    rw [if_pos (by simp [isOfcBag, hasattr_ofc_none])]
  · intro fields ht
    have herr : isErrorBag (.str "ONE_OFF")
        (dictGetD fields "scheme_subtype" (.str "")) = true := by
      simp [isErrorBag, hasattr_one_off_none]
    have hres : generate_config fields none =
        [("error", .str ("Unknown scheme configuration for ONE_OFF - "
          ++ pyFmt (dictGetD fields "scheme_subtype" (.str ""))))] := by
      unfold generate_config
      dsimp only
      rw [ht]
      rw [if_pos (by simp [herr])]
      rfl
    rw [hres]
    refine ⟨rfl, rfl, rfl⟩
  · intro fields ts hts ht hs
    fin_cases hts <;>
      · have herr : isErrorBag (dictGetD fields "scheme_type" (.str ""))
            (dictGetD fields "scheme_subtype" (.str "")) = false := by
          rw [ht]
          simp [isErrorBag]
        have hofc : ¬ dictGetD fields "scheme_type" (.str "") = .str "OFC" := by
          rw [ht]
          simp
        rw [generate_config_eq_multi fields herr hofc, ht, hs]
        exact hasNE_multiProduct_ex _ _ ⟨_, rfl⟩ (fsnIter_ne_nil _)
  · intro fields ht hs
    have herr : isErrorBag (dictGetD fields "scheme_type" (.str ""))
        (dictGetD fields "scheme_subtype" (.str "")) = false := by
      rw [ht]
      simp [isErrorBag]
    have hofc : ¬ dictGetD fields "scheme_type" (.str "") = .str "OFC" := by
      rw [ht]
      simp
    rw [generate_config_eq_multi fields herr hofc, ht, hs]
    rw [show dispatchConfig (.str "SELL_SIDE") (.str "BOC") fields = [] by
      simp [dispatchConfig, hasattrGenName, registeredGenNames]]
    exact multiProduct_nil _

/-- Claim C6, witness: the amended theorem at concrete bags — the `OFC`
stub, the `ONE_OFF` error, and a generated `BS-PC` schema. -/
theorem C6_witness :
    generate_config [("scheme_type", .str "OFC")] none =
      [("info", .str "No FSN Config required for OFC")] ∧
    oHasKey (generate_config
      [("scheme_type", .str "ONE_OFF"), ("scheme_subtype", .str "N/A")] none) "error"
      = true ∧
    hasNonemptyFieldsOrProducts (generate_config
      [("scheme_type", .str "BUY_SIDE"), ("scheme_subtype", .str "PERIODIC_CLAIM")] none)
      = true := by
  obtain ⟨h1, h2, h3, h4⟩ := C6_one_off_stub_and_coverage
  refine ⟨h1 [("scheme_type", .str "OFC")] rfl, ?_, ?_⟩
  · exact (h2 [("scheme_type", .str "ONE_OFF"), ("scheme_subtype", .str "N/A")] rfl).1
  · exact h3 [("scheme_type", .str "BUY_SIDE"), ("scheme_subtype", .str "PERIODIC_CLAIM")]
      ("BUY_SIDE", "PERIODIC_CLAIM") (by decide) rfl rfl

/-- Claim C7, counterexample: a field bag with two resolved FSNs whose
classification is `OFC` returns the `info` stub — no `products` list at all
— so the expansion rule does not hold for every field bag with two or more
identifiers. -/
theorem C7_counterexample :
    generate_config
      [("scheme_type", .str "OFC"), ("resolved_fsns", .strList ["FSN1", "FSN2"])] none =
      [("info", .str "No FSN Config required for OFC")] ∧
    oHasKey (generate_config
      [("scheme_type", .str "OFC"), ("resolved_fsns", .strList ["FSN1", "FSN2"])] none)
      "products" = false := by
  exact ⟨by decide, by decide⟩

/-- Claim C7, amended: for every field bag whose dispatch produces a result
carrying a `fields` map (i.e. a generator ran — not the OFC stub, error or
empty fallthrough), a `resolved_fsns` list with two or more identifiers
turns the result into a `products` list with exactly one entry per
identifier, entries agreeing with the generator's map everywhere except
`ProductId`, and the singular `fields` map is removed; a one-element or
absent list keeps a `fields` map whose `ProductId` is that identifier or
the literal placeholder string. -/
theorem C7_multi_product_expansion (fields : FieldBag) (base : FMap)
    (hdisp : oGet? (dispatchConfig (dictGetD fields "scheme_type" (.str ""))
      (dictGetD fields "scheme_subtype" (.str "")) fields) "fields" = some (.fmap base)) :
    (∀ fsns : List String, dictGet? fields "resolved_fsns" = some (.strList fsns) →
      2 ≤ fsns.length →
      oGet? (generate_config fields none) "products" =
        some (.plist (fsns.map (fun fsn => fSet base "ProductId" (.str fsn)))) ∧
      oGet? (generate_config fields none) "fields" = none ∧
      (fsns.map (fun fsn => fSet base "ProductId" (.str fsn))).length = fsns.length ∧
      (∀ m ∈ fsns.map (fun fsn => fSet base "ProductId" (.str fsn)),
        ∀ k : String, ¬ k = "ProductId" → fGet? m k = fGet? base k) ∧
      (fsns.map (fun fsn => fSet base "ProductId" (.str fsn))).map
          (fun m => fGet? m "ProductId") = fsns.map (fun f => some (.str f))) ∧
    (∀ f0 : String, dictGet? fields "resolved_fsns" = some (.strList [f0]) →
      oGet? (generate_config fields none) "fields" =
        some (.fmap (fSet base "ProductId" (.str f0))) ∧
      fGet? (fSet base "ProductId" (.str f0)) "ProductId" = some (.str f0)) ∧
    (dictGet? fields "resolved_fsns" = none →
      oGet? (generate_config fields none) "fields" =
        some (.fmap (fSet base "ProductId" (.str "Populate from FSN File")))) := by
  have herr : isErrorBag (dictGetD fields "scheme_type" (.str ""))
      (dictGetD fields "scheme_subtype" (.str "")) = false := by
    cases h : isErrorBag (dictGetD fields "scheme_type" (.str ""))
        (dictGetD fields "scheme_subtype" (.str "")) with
    | false => rfl
    | true =>
      rw [dispatchConfig_nil_of_error _ _ fields h] at hdisp
      cases hdisp
  have hofc : ¬ dictGetD fields "scheme_type" (.str "") = .str "OFC" := by
    intro hc
    rw [hc, dispatchConfig_nil_ofc _ fields] at hdisp
    cases hdisp
  have hgc := generate_config_eq_multi fields herr hofc
  refine ⟨?_, ?_, ?_⟩
  · intro fsns hf h2
    have hiter : fsnIter (dictGet? fields "resolved_fsns") = fsns := by
      rw [hf]
      show (if fsns = [] then ["Populate from FSN File"] else fsns) = fsns
      rw [if_neg (by intro hc; rw [hc] at h2; simp at h2)]
    rw [hgc, hiter]
    obtain ⟨hp, hfld⟩ := multiProduct_products _ base fsns hdisp h2
    refine ⟨hp, hfld, List.length_map _ _, ?_, ?_⟩
    · intro m hm k hk
      rw [List.mem_map] at hm
      obtain ⟨f, _, rfl⟩ := hm
      exact aGet?_aSet_ne base "ProductId" k (PyVal.str f) hk
    · rw [List.map_map]
      simp only [Function.comp_def]
      have : ∀ f : String, fGet? (fSet base "ProductId" (.str f)) "ProductId"
          = some (.str f) := fun f => aGet?_aSet_self base "ProductId" _
      simp [this]
  · intro f0 hf
    have hiter : fsnIter (dictGet? fields "resolved_fsns") = [f0] := by
      rw [hf]
      show (if [f0] = ([] : List String) then ["Populate from FSN File"] else [f0]) = [f0]
      rw [if_neg (by simp)]
    rw [hgc, hiter, multiProduct_single _ base f0 hdisp]
    exact ⟨aGet?_aSet_self _ "fields" _, aGet?_aSet_self base "ProductId" _⟩
  · intro hf
    have hiter : fsnIter (dictGet? fields "resolved_fsns") = ["Populate from FSN File"] := by
      rw [hf]
      rfl
    rw [hgc, hiter, multiProduct_single _ base _ hdisp]
    exact aGet?_aSet_self _ "fields" _

/-- Claim C7, witness: the amended theorem at a concrete PDC bag with two
FSNs (products list of length two, no `fields` key) and at one with a
single FSN (a `fields` map keyed to it). -/
theorem C7_witness :
    (oGet? (generate_config
      [("scheme_type", .str "PDC"), ("resolved_fsns", .strList ["FSN1", "FSN2"])] none)
      "products").isSome = true ∧
    oHasKey (generate_config
      [("scheme_type", .str "PDC"), ("resolved_fsns", .strList ["FSN1", "FSN2"])] none)
      "fields" = false ∧
    (oGet? (generate_config
      [("scheme_type", .str "PDC"), ("resolved_fsns", .strList ["FSN9"])] none)
      "fields").isSome = true := by
  refine ⟨?_, ?_, ?_⟩
  · have h := (C7_multi_product_expansion
      [("scheme_type", .str "PDC"), ("resolved_fsns", .strList ["FSN1", "FSN2"])] _
      rfl).1 ["FSN1", "FSN2"] rfl (by decide)
    rw [h.1]
    rfl
  · have h := (C7_multi_product_expansion
      [("scheme_type", .str "PDC"), ("resolved_fsns", .strList ["FSN1", "FSN2"])] _
      rfl).1 ["FSN1", "FSN2"] rfl (by decide)
    unfold oHasKey
    rw [h.2.1]
    rfl
  · have h := (C7_multi_product_expansion
      [("scheme_type", .str "PDC"), ("resolved_fsns", .strList ["FSN9"])] _
      rfl).2.1 "FSN9" rfl
    rw [h.1]
    rfl

section LineLemmas

lemma splitNl_ne_nil (t : Str) : splitNl t ≠ [] := by
  cases t with
  | nil => simp [splitNl]
  | cons c rest =>
    unfold splitNl
    split
    · simp
    · cases h : splitNl rest <;> simp

lemma splitNl_no_nl (t : Str) : ∀ l ∈ splitNl t, '\n' ∉ l := by
  induction t with
  | nil =>
    intro l hl
    simp [splitNl] at hl
    simp [hl]
  | cons c rest ih =>
    intro l hl
    unfold splitNl at hl
    by_cases hc : c = '\n'
    · rw [if_pos hc] at hl
      rcases List.mem_cons.mp hl with h | h
      · simp [h]
      · exact ih l h
    · rw [if_neg hc] at hl
      rcases hsp : splitNl rest with _ | ⟨l0, ls⟩
      · exact absurd hsp (splitNl_ne_nil rest)
      · rw [hsp] at hl
        rcases List.mem_cons.mp hl with h | h
        · subst h
          intro hmem
          rcases List.mem_cons.mp hmem with h2 | h2
          · exact hc h2.symm
          · exact ih l0 (hsp ▸ List.mem_cons_self l0 ls) h2
        · exact ih l (hsp ▸ List.mem_cons_of_mem l0 h)

lemma splitNl_nil : splitNl [] = [[]] := rfl

lemma splitNl_cons_nl (rest : Str) : splitNl ('\n' :: rest) = [] :: splitNl rest := by
  conv =>
    lhs
    unfold splitNl
  rw [if_pos rfl]

lemma splitNl_cons_other (c : Char) (rest : Str) (h : ¬ c = '\n') :
    splitNl (c :: rest) =
      match splitNl rest with
      | [] => [[c]]
      | l :: ls => (c :: l) :: ls := by
  conv =>
    lhs
    unfold splitNl
  rw [if_neg h]

lemma splitNl_append_newline (x y : Str) :
    splitNl (x ++ '\n' :: y) = splitNl x ++ splitNl y := by
  induction x with
  | nil =>
    rw [List.nil_append, splitNl_cons_nl, splitNl_nil]
    rfl
  | cons c rest ih =>
    rw [List.cons_append]
    by_cases hc : c = '\n'
    · subst hc
      rw [splitNl_cons_nl, splitNl_cons_nl, ih]
      rfl
    · rw [splitNl_cons_other _ _ hc, splitNl_cons_other _ _ hc, ih]
      rcases hsp : splitNl rest with _ | ⟨l0, ls⟩
      · exact absurd hsp (splitNl_ne_nil rest)
      · rfl

lemma splitNl_single (l : Str) (h : '\n' ∉ l) : splitNl l = [l] := by
  induction l with
  | nil => rfl
  | cons c rest ih =>
    unfold splitNl
    rw [if_neg (fun hc => h (List.mem_cons.mpr (Or.inl hc.symm)))]
    rw [ih (fun hm => h (List.mem_cons_of_mem c hm))]

lemma intercalate_cons_cons {α : Type} (sep a b : List α) (rest : List (List α)) :
    List.intercalate sep (a :: b :: rest) = a ++ sep ++ List.intercalate sep (b :: rest) := by
  unfold List.intercalate
  rw [List.intersperse_cons_cons, List.flatten_cons, List.flatten_cons, List.append_assoc]

lemma joinNl_cons_cons (a b : Str) (rest : List Str) :
    joinNl (a :: b :: rest) = a ++ '\n' :: joinNl (b :: rest) := by
  unfold joinNl
  rw [intercalate_cons_cons]
  rw [List.append_assoc]
  rfl

lemma joinNl_single (a : Str) : joinNl [a] = a := by
  unfold joinNl List.intercalate
  simp

lemma splitNl_joinNl (ls : List Str) (hne : ls ≠ [])
    (h : ∀ l ∈ ls, '\n' ∉ l) : splitNl (joinNl ls) = ls := by
  induction ls with
  | nil => exact absurd rfl hne
  | cons a rest ih =>
    cases rest with
    | nil =>
      rw [joinNl_single]
      exact splitNl_single a (h a (List.mem_cons_self a []))
    | cons b rest2 =>
      rw [joinNl_cons_cons, splitNl_append_newline,
        splitNl_single a (h a (List.mem_cons_self a (b :: rest2))),
        ih (by simp) (fun l hl => h l (List.mem_cons_of_mem a hl))]
      rfl

lemma joinNl_splitNl (t : Str) : joinNl (splitNl t) = t := by
  induction t with
  | nil => rfl
  | cons c rest ih =>
    unfold splitNl
    by_cases hc : c = '\n'
    · rw [if_pos hc]
      rcases hsp : splitNl rest with _ | ⟨l0, ls⟩
      · exact absurd hsp (splitNl_ne_nil rest)
      · rw [hsp] at ih
        rw [joinNl_cons_cons, hc, ih]
        rfl
    · rw [if_neg hc]
      rcases hsp : splitNl rest with _ | ⟨l0, ls⟩
      · exact absurd hsp (splitNl_ne_nil rest)
      · rw [hsp] at ih
        cases ls with
        | nil =>
          rw [joinNl_single]
          rw [joinNl_single] at ih
          rw [ih]
        | cons l1 ls2 =>
          rw [joinNl_cons_cons]
          rw [joinNl_cons_cons] at ih
          rw [List.cons_append, ih]

end LineLemmas

section StripLemmas

lemma dropWhile_head_not {p : Char → Bool} {l : Str} {c : Char} {r : Str}
    (h : l.dropWhile p = c :: r) : p c = false := by
  induction l with
  | nil => cases h
  | cons a t ih =>
    rw [List.dropWhile_cons] at h
    by_cases ha : p a = true
    · rw [if_pos ha] at h
      exact ih h
    · rw [if_neg ha] at h
      cases h
      exact Bool.eq_false_iff.mpr ha

lemma dropWhile_dropWhile (p : Char → Bool) (l : Str) :
    (l.dropWhile p).dropWhile p = l.dropWhile p := by
  rcases h : l.dropWhile p with _ | ⟨c, r⟩
  · rfl
  · rw [List.dropWhile_cons, if_neg (by rw [dropWhile_head_not h]; simp)]

lemma dropWhile_append_of_exists {p : Char → Bool} {a : Str} (b : Str)
    (h : ∃ c ∈ a, p c = false) : (a ++ b).dropWhile p = a.dropWhile p ++ b := by
  induction a with
  | nil =>
    obtain ⟨c, hc, _⟩ := h
    cases hc
  | cons x t ih =>
    rw [List.cons_append, List.dropWhile_cons, List.dropWhile_cons]
    by_cases hx : p x = true
    · rw [if_pos hx, if_pos hx]
      apply ih
      obtain ⟨c, hc, hpc⟩ := h
      rcases List.mem_cons.mp hc with hcx | hct
      · rw [hcx] at hpc
        rw [hpc] at hx
        cases hx
      · exact ⟨c, hct, hpc⟩
    · rw [if_neg hx, if_neg hx, List.cons_append]

lemma strip_eq_nil_iff (l : Str) : strip l = [] ↔ ∀ c ∈ l, isPySpace c = true := by
  unfold strip
  constructor
  · intro h c hc
    rw [List.reverse_eq_nil_iff, List.dropWhile_eq_nil_iff] at h
    have h2 : ∀ x ∈ l.dropWhile isPySpace, isPySpace x = true :=
      fun x hx => h x (List.mem_reverse.mpr hx)
    rcases List.mem_append.mp
        ((List.takeWhile_append_dropWhile isPySpace l).symm ▸ hc) with h3 | h3
    · exact List.mem_takeWhile_imp h3
    · exact h2 c h3
  · intro h
    have h1 : l.dropWhile isPySpace = [] :=
      List.dropWhile_eq_nil_iff.mpr (fun x hx => h x hx)
    rw [h1]
    rfl

end StripLemmas

section StripReverse

lemma dropWhile_append_all {p : Char → Bool} {t : Str} (z : Str)
    (h : ∀ c ∈ t, p c = true) : (t ++ z).dropWhile p = z.dropWhile p := by
  induction t with
  | nil => rfl
  | cons x r ih =>
    rw [List.cons_append, List.dropWhile_cons,
      if_pos (h x (List.mem_cons_self x r))]
    exact ih (fun c hc => h c (List.mem_cons_of_mem x hc))

lemma dropWhile_getLast? {p : Char → Bool} {l : Str}
    (h : l.dropWhile p ≠ []) : (l.dropWhile p).getLast? = l.getLast? := by
  obtain ⟨t, ht⟩ := List.dropWhile_suffix (l := l) p
  conv_rhs => rw [← ht]
  rw [List.getLast?_append_of_ne_nil t h]

lemma strip_dropWhile (l : Str) :
    strip (l.dropWhile isPySpace) = strip l := by
  unfold strip
  rw [dropWhile_dropWhile]

lemma strip_reverse (l : Str) : strip l.reverse = (strip l).reverse := by
  by_cases hall : ∀ c ∈ l, isPySpace c = true
  · have h1 : l.dropWhile isPySpace = [] := List.dropWhile_eq_nil_iff.mpr hall
    have h2 : l.reverse.dropWhile isPySpace = [] :=
      List.dropWhile_eq_nil_iff.mpr (fun c hc => hall c (List.mem_reverse.mp hc))
    unfold strip
    rw [h1, h2]
    rfl
  · have hd : l.dropWhile isPySpace ≠ [] := by
      intro hc
      exact hall (List.dropWhile_eq_nil_iff.mp hc)
    have hsplit := List.takeWhile_append_dropWhile isPySpace l
    have htake : ∀ c ∈ l.takeWhile isPySpace, isPySpace c = true :=
      fun c hc => List.mem_takeWhile_imp hc
    rcases hdc : l.dropWhile isPySpace with _ | ⟨c, d⟩
    · exact absurd hdc hd
    · have hc : isPySpace c = false := dropWhile_head_not hdc
      set B := (l.dropWhile isPySpace).reverse.dropWhile isPySpace with hB
      have hstripl : strip l = B.reverse := rfl
      have hne2 : ∃ x ∈ (l.dropWhile isPySpace).reverse, isPySpace x = false := by
        refine ⟨c, ?_, hc⟩
        rw [List.mem_reverse, hdc]
        exact List.mem_cons_self c d
      have hstep : l.reverse.dropWhile isPySpace =
          B ++ (l.takeWhile isPySpace).reverse := by
        have hrev : l.reverse =
            (l.dropWhile isPySpace).reverse ++ (l.takeWhile isPySpace).reverse := by
          rw [← List.reverse_append, hsplit]
        rw [hrev]
        exact dropWhile_append_of_exists _ hne2
      have hBne : B ≠ [] := by
        intro hcon
        rw [hB, List.dropWhile_eq_nil_iff] at hcon
        obtain ⟨x, hx, hpx⟩ := hne2
        rw [hcon x hx] at hpx
        cases hpx
      have hlastB : B.getLast? = some c := by
        rw [hB, dropWhile_getLast? (hB ▸ hBne), List.getLast?_reverse, hdc]
        rfl
      have hkey : ((B.reverse).dropWhile isPySpace).reverse = B := by
        rcases hBrev : B.reverse with _ | ⟨b, bs⟩
        · rw [List.reverse_eq_nil_iff] at hBrev
          exact absurd hBrev hBne
        · have hb : b = c := by
            have hh := List.head?_reverse B
            rw [hBrev, hlastB] at hh
            cases hh
            rfl
        
          rw [List.dropWhile_cons, if_neg (by rw [hb, hc]; simp)]
          rw [← hBrev, List.reverse_reverse]
      have hmain : strip l.reverse = B := by
        unfold strip
        rw [hstep, List.reverse_append, List.reverse_reverse,
          dropWhile_append_all B.reverse htake, hkey]
      rw [hmain, hstripl, List.reverse_reverse]

lemma strip_idem (l : Str) : strip (strip l) = strip l := by
  have h1 : strip l = ((l.dropWhile isPySpace).reverse.dropWhile isPySpace).reverse := rfl
  rw [h1, strip_reverse, strip_dropWhile, strip_reverse, strip_dropWhile,
    List.reverse_reverse]
  exact h1

lemma blankLine_reverse (l : Str) : blankLine l.reverse = blankLine l := by
  unfold blankLine
  rw [strip_reverse]
  rcases h : strip l with _ | ⟨c, r⟩ <;> simp

lemma blankLine_dropWhile (l : Str) :
    blankLine (l.dropWhile isPySpace) = blankLine l := by
  unfold blankLine
  rw [strip_dropWhile]

lemma blankLine_iff (l : Str) : blankLine l = true ↔ ∀ c ∈ l, isPySpace c = true := by
  unfold blankLine
  rw [List.isEmpty_iff]
  exact strip_eq_nil_iff l

lemma strip_blankLine_false {l : Str} (h : blankLine l = false) : strip l ≠ [] := by
  unfold blankLine at h
  intro hc
  rw [hc] at h
  cases h

end StripReverse

section LineStrip

lemma joinNl_append (x y : List Str) (hx : x ≠ []) (hy : y ≠ []) :
    joinNl (x ++ y) = joinNl x ++ '\n' :: joinNl y := by
  induction x with
  | nil => exact absurd rfl hx
  | cons a rest ih =>
    cases rest with
    | nil =>
      rcases y with _ | ⟨b, ys⟩
      · exact absurd rfl hy
      · rw [List.singleton_append, joinNl_cons_cons, joinNl_single]
    | cons b rest2 =>
      have hih := ih (by simp)
      rw [show (a :: b :: rest2) ++ y = a :: ((b :: rest2) ++ y) from rfl]
      rw [show (b :: rest2) ++ y = b :: (rest2 ++ y) from rfl]
      rw [joinNl_cons_cons a b (rest2 ++ y)]
      rw [show (joinNl (b :: (rest2 ++ y)) : Str) = joinNl ((b :: rest2) ++ y) from rfl]
      rw [hih, joinNl_cons_cons a b rest2]
      simp

lemma reverse_joinNl (ls : List Str) (h : ls ≠ []) :
    (joinNl ls).reverse = joinNl ((ls.map List.reverse).reverse) := by
  induction ls with
  | nil => exact absurd rfl h
  | cons a rest ih =>
    cases rest with
    | nil => simp [joinNl_single]
    | cons b rest2 =>
      rw [joinNl_cons_cons]
      have hih := ih (by simp)
      rw [List.reverse_append, List.reverse_cons]
      rw [show ((a :: b :: rest2).map List.reverse).reverse =
        (((b :: rest2).map List.reverse).reverse) ++ [a.reverse] by simp]
      rw [joinNl_append _ _ (by simp) (by simp), ← hih, joinNl_single]
      simp

lemma splitNl_reverse (t : Str) :
    splitNl t.reverse = ((splitNl t).map List.reverse).reverse := by
  conv_lhs => rw [show t = joinNl (splitNl t) from (joinNl_splitNl t).symm]
  rw [reverse_joinNl _ (splitNl_ne_nil t)]
  apply splitNl_joinNl
  · intro hc
    rw [List.reverse_eq_nil_iff, List.map_eq_nil_iff] at hc
    exact splitNl_ne_nil t hc
  · intro l hl
    rw [List.mem_reverse, List.mem_map] at hl
    obtain ⟨l0, hl0, rfl⟩ := hl
    intro hmem
    exact splitNl_no_nl t l0 hl0 (List.mem_reverse.mp hmem)

lemma lines_dropWhile_ws {t l0 : Str} {rest : List Str}
    (hsp : splitNl t = l0 :: rest) (h0 : blankLine l0 = false) :
    splitNl (t.dropWhile isPySpace) = l0.dropWhile isPySpace :: rest := by
  have hnl : ∀ l ∈ splitNl t, '\n' ∉ l := splitNl_no_nl t
  have hl0nl : '\n' ∉ l0 := hnl l0 (by rw [hsp]; exact List.mem_cons_self _ _)
  have hex : ∃ c ∈ l0, isPySpace c = false := by
    by_contra hc
    push_neg at hc
    have hb : blankLine l0 = true := (blankLine_iff l0).mpr (fun c hmem => by
      have := hc c hmem
      revert this
      cases isPySpace c <;> simp)
    rw [hb] at h0
    cases h0
  have ht : t = joinNl (l0 :: rest) := by rw [← hsp, joinNl_splitNl]
  cases rest with
  | nil =>
    rw [ht, joinNl_single]
    exact splitNl_single _ (fun hm => hl0nl ((List.dropWhile_suffix _).subset hm))
  | cons b rest2 =>
    rw [ht, joinNl_cons_cons, dropWhile_append_of_exists _ hex,
      splitNl_append_newline,
      splitNl_single (l0.dropWhile isPySpace)
        (fun hm => hl0nl ((List.dropWhile_suffix _).subset hm)),
      splitNl_joinNl (b :: rest2) (by simp)
        (fun l hl => hnl l (by rw [hsp]; exact List.mem_cons_of_mem _ hl))]
    rfl

lemma splitNl_strip_spec {t : Str} (h : ∀ l ∈ splitNl t, blankLine l = false) :
    ∀ l ∈ splitNl (strip t),
      blankLine l = false ∧ ∃ l0 ∈ splitNl t, strip l = strip l0 := by
  rcases hsp : splitNl t with _ | ⟨l0, rest⟩
  · exact absurd hsp (splitNl_ne_nil t)
  have h0 : blankLine l0 = false := h l0 (by rw [hsp]; exact List.mem_cons_self _ _)
  have hA : splitNl (t.dropWhile isPySpace) = l0.dropWhile isPySpace :: rest :=
    lines_dropWhile_ws hsp h0
  have hAnb : ∀ l ∈ splitNl (t.dropWhile isPySpace), blankLine l = false := by
    intro l hl
    rw [hA] at hl
    rcases List.mem_cons.mp hl with rfl | hl
    · rw [blankLine_dropWhile]
      exact h0
    · exact h l (by rw [hsp]; exact List.mem_cons_of_mem _ hl)
  have hAmem : ∀ l ∈ splitNl (t.dropWhile isPySpace),
      ∃ a ∈ splitNl t, strip l = strip a := by
    intro l hl
    rw [hA] at hl
    rcases List.mem_cons.mp hl with rfl | hl
    · exact ⟨l0, by rw [hsp]; exact List.mem_cons_self _ _, strip_dropWhile l0⟩
    · exact ⟨l, by rw [hsp]; exact List.mem_cons_of_mem _ hl, rfl⟩
  have hBnb : ∀ l ∈ splitNl (t.dropWhile isPySpace).reverse, blankLine l = false := by
    intro l hl
    rw [splitNl_reverse, List.mem_reverse, List.mem_map] at hl
    obtain ⟨m, hm, rfl⟩ := hl
    rw [blankLine_reverse]
    exact hAnb m hm
  have hBmem : ∀ l ∈ splitNl (t.dropWhile isPySpace).reverse,
      ∃ a ∈ splitNl t, strip l = (strip a).reverse := by
    intro l hl
    rw [splitNl_reverse, List.mem_reverse, List.mem_map] at hl
    obtain ⟨m, hm, rfl⟩ := hl
    obtain ⟨a, ha, hsa⟩ := hAmem m hm
    exact ⟨a, ha, by rw [strip_reverse, hsa]⟩
  rcases hspB : splitNl (t.dropWhile isPySpace).reverse with _ | ⟨m0, mrest⟩
  · exact absurd hspB (splitNl_ne_nil _)
  have hm0 : blankLine m0 = false :=
    hBnb m0 (by rw [hspB]; exact List.mem_cons_self _ _)
  have hC : splitNl ((t.dropWhile isPySpace).reverse.dropWhile isPySpace) =
      m0.dropWhile isPySpace :: mrest := lines_dropWhile_ws hspB hm0
  have hCnb : ∀ l ∈ splitNl ((t.dropWhile isPySpace).reverse.dropWhile isPySpace),
      blankLine l = false := by
    intro l hl
    rw [hC] at hl
    rcases List.mem_cons.mp hl with rfl | hl
    · rw [blankLine_dropWhile]
      exact hm0
    · exact hBnb l (by rw [hspB]; exact List.mem_cons_of_mem _ hl)
  have hCmem : ∀ l ∈ splitNl ((t.dropWhile isPySpace).reverse.dropWhile isPySpace),
      ∃ a ∈ splitNl t, strip l = (strip a).reverse := by
    intro l hl
    rw [hC] at hl
    rcases List.mem_cons.mp hl with rfl | hl
    · obtain ⟨a, ha, hsa⟩ := hBmem m0 (by rw [hspB]; exact List.mem_cons_self _ _)
      exact ⟨a, ha, by rw [strip_dropWhile, hsa]⟩
    · exact hBmem l (by rw [hspB]; exact List.mem_cons_of_mem _ hl)
  intro l hl
  have hstrip : strip t = ((t.dropWhile isPySpace).reverse.dropWhile isPySpace).reverse :=
    rfl
  rw [hstrip, splitNl_reverse, List.mem_reverse, List.mem_map] at hl
  obtain ⟨m, hm, rfl⟩ := hl
  refine ⟨by rw [blankLine_reverse]; exact hCnb m hm, ?_⟩
  obtain ⟨a, ha, hsa⟩ := hCmem m hm
  rw [hsp] at ha
  exact ⟨a, ha, by rw [strip_reverse, hsa, List.reverse_reverse]⟩

end LineStrip

section SegmentLemmas

lemma blankLine_nil : blankLine ([] : Str) = true := rfl

lemma intercalate_single {α : Type} (sep a : List α) :
    List.intercalate sep [a] = a := by
  simp [List.intercalate]

lemma splitNl_intercalate_nn (ps : List Str) (h : ps ≠ []) :
    splitNl (List.intercalate nn ps) =
      List.intercalate [([] : Str)] (ps.map splitNl) := by
  induction ps with
  | nil => exact absurd rfl h
  | cons p rest ih =>
    cases rest with
    | nil => rw [intercalate_single, List.map_singleton, intercalate_single]
    | cons q rest2 =>
      rw [intercalate_cons_cons]
      rw [show (p ++ nn) ++ List.intercalate nn (q :: rest2) =
        p ++ '\n' :: ('\n' :: List.intercalate nn (q :: rest2)) by
          simp [nn, List.append_assoc]]
      rw [splitNl_append_newline, splitNl_cons_nl, ih (by simp)]
      simp [intercalate_cons_cons]

lemma mem_lines_intercalate {ps : List Str} {p l : Str}
    (hp : p ∈ ps) (hl : l ∈ splitNl p) :
    l ∈ splitNl (List.intercalate nn ps) := by
  induction ps with
  | nil => cases hp
  | cons a rest ih =>
    cases rest with
    | nil =>
      rw [intercalate_single]
      rcases List.mem_cons.mp hp with rfl | hp
      · exact hl
      · cases hp
    | cons q rest2 =>
      rw [intercalate_cons_cons,
        show (a ++ nn) ++ List.intercalate nn (q :: rest2) =
          a ++ '\n' :: ('\n' :: List.intercalate nn (q :: rest2)) by
            simp [nn, List.append_assoc],
        splitNl_append_newline, splitNl_cons_nl]
      rcases List.mem_cons.mp hp with rfl | hp
      · exact List.mem_append_left _ hl
      · exact List.mem_append_right _ (List.mem_cons_of_mem _ (ih hp))

lemma lines_of_intercalate {ps : List Str} (hne : ps ≠ []) :
    ∀ l ∈ splitNl (List.intercalate nn ps),
      l = [] ∨ ∃ p ∈ ps, l ∈ splitNl p := by
  induction ps with
  | nil => exact absurd rfl hne
  | cons a rest ih =>
    intro l hl
    cases rest with
    | nil =>
      rw [intercalate_single] at hl
      exact Or.inr ⟨a, List.mem_cons_self _ _, hl⟩
    | cons q rest2 =>
      rw [intercalate_cons_cons,
        show (a ++ nn) ++ List.intercalate nn (q :: rest2) =
          a ++ '\n' :: ('\n' :: List.intercalate nn (q :: rest2)) by
            simp [nn, List.append_assoc],
        splitNl_append_newline, splitNl_cons_nl] at hl
      rcases List.mem_append.mp hl with hl | hl
      · exact Or.inr ⟨a, List.mem_cons_self _ _, hl⟩
      · rcases List.mem_cons.mp hl with rfl | hl
        · exact Or.inl rfl
        · rcases ih (by simp) l hl with h | ⟨p, hp, hlp⟩
          · exact Or.inl h
          · exact Or.inr ⟨p, List.mem_cons_of_mem _ hp, hlp⟩

lemma mem_groupLines {ls : List Str} :
    ∀ g ∈ groupLines ls, ∀ l ∈ g, l ∈ ls ∧ blankLine l = false := by
  induction ls with
  | nil =>
    intro g hg l hl
    simp only [groupLines, List.mem_cons, List.not_mem_nil, or_false] at hg
    subst hg
    cases hl
  | cons a rest ih =>
    intro g hg l hl
    by_cases hb : blankLine a = true
    · rw [show groupLines (a :: rest) = [] :: groupLines rest by
        simp [groupLines, hb]] at hg
      rcases List.mem_cons.mp hg with rfl | hg
      · cases hl
      · obtain ⟨h1, h2⟩ := ih g hg l hl
        exact ⟨List.mem_cons_of_mem _ h1, h2⟩
    · have hb' : blankLine a = false := Bool.eq_false_iff.mpr hb
      rcases hgr : groupLines rest with _ | ⟨g0, gs⟩
      · rw [show groupLines (a :: rest) = [[a]] by
          simp [groupLines, hb', hgr]] at hg
        simp only [List.mem_cons, List.not_mem_nil, or_false] at hg
        subst hg
        rcases List.mem_cons.mp hl with rfl | hl
        · exact ⟨List.mem_cons_self _ _, hb'⟩
        · cases hl
      · rw [show groupLines (a :: rest) = (a :: g0) :: gs by
          simp [groupLines, hb', hgr]] at hg
        rcases List.mem_cons.mp hg with rfl | hg
        · rcases List.mem_cons.mp hl with rfl | hl
          · exact ⟨List.mem_cons_self _ _, hb'⟩
          · obtain ⟨h1, h2⟩ := ih g0 (by rw [hgr]; exact List.mem_cons_self _ _) l hl
            exact ⟨List.mem_cons_of_mem _ h1, h2⟩
        · obtain ⟨h1, h2⟩ := ih g (by rw [hgr]; exact List.mem_cons_of_mem _ hg) l hl
          exact ⟨List.mem_cons_of_mem _ h1, h2⟩

lemma groupLines_append_blank (A B : List Str)
    (hA : ∀ l ∈ A, blankLine l = false) :
    groupLines (A ++ [] :: B) = A :: groupLines B := by
  induction A with
  | nil => simp [groupLines, blankLine_nil]
  | cons a A' ih =>
    have ha : blankLine a = false := hA a (List.mem_cons_self _ _)
    have hih := ih (fun l hl => hA l (List.mem_cons_of_mem _ hl))
    rw [List.cons_append]
    rw [show groupLines (a :: (A' ++ [] :: B)) =
      (match groupLines (A' ++ [] :: B) with
       | [] => [[a]]
       | g :: gs => (a :: g) :: gs) by simp [groupLines, ha]]
    rw [hih]

lemma groupLines_all_nonblank (A : List Str) (hne : A ≠ [])
    (hA : ∀ l ∈ A, blankLine l = false) : groupLines A = [A] := by
  induction A with
  | nil => exact absurd rfl hne
  | cons a A' ih =>
    have ha : blankLine a = false := hA a (List.mem_cons_self _ _)
    cases A' with
    | nil => simp [groupLines, ha]
    | cons b A'' =>
      have hih := ih (by simp) (fun l hl => hA l (List.mem_cons_of_mem _ hl))
      rw [show groupLines (a :: b :: A'') =
        (match groupLines (b :: A'') with
         | [] => [[a]]
         | g :: gs => (a :: g) :: gs) by simp [groupLines, ha]]
      rw [hih]

end SegmentLemmas

section ParaLemmas

lemma paraGood_nonspace {p : Str} (h : ParaGood p) :
    ∃ c ∈ p, isPySpace c = false := by
  obtain ⟨h1, h2, _⟩ := h
  by_contra hc
  push_neg at hc
  have hall : ∀ c ∈ p, isPySpace c = true := by
    intro c hm
    rcases hb : isPySpace c with _ | _
    · exact absurd hb (hc c hm)
    · rfl
  have : strip p = [] := (strip_eq_nil_iff p).mpr hall
  rw [h2] at this
  exact h1 this

lemma strip_intercalate_ne_nil {ps : List Str} (hne : ps ≠ [])
    (h : ∀ p ∈ ps, ParaGood p) :
    strip (List.intercalate nn ps) ≠ [] := by
  rcases ps with _ | ⟨p, rest⟩
  · exact absurd rfl hne
  obtain ⟨c, hc, hcs⟩ := paraGood_nonspace (h p (List.mem_cons_self _ _))
  intro hnil
  have hcm : c ∈ List.intercalate nn (p :: rest) := by
    rcases rest with _ | ⟨q, r⟩
    · rw [intercalate_single]
      exact hc
    · rw [intercalate_cons_cons]
      exact List.mem_append_left _ (List.mem_append_left _ hc)
  have := (strip_eq_nil_iff _).mp hnil c hcm
  rw [this] at hcs
  cases hcs

lemma mem_joinNl {ls : List Str} {l : Str} {c : Char}
    (hl : l ∈ ls) (hc : c ∈ l) : c ∈ joinNl ls := by
  induction ls with
  | nil => cases hl
  | cons a rest ih =>
    cases rest with
    | nil =>
      rw [joinNl_single]
      rcases List.mem_cons.mp hl with rfl | hl
      · exact hc
      · cases hl
    | cons b r =>
      rw [joinNl_cons_cons]
      rcases List.mem_cons.mp hl with rfl | hl
      · exact List.mem_append_left _ hc
      · exact List.mem_append_right _ (List.mem_cons_of_mem _ (ih hl))

lemma joinNl_chars {ls : List Str} {c : Char} (hc : c ∈ joinNl ls) :
    c = '\n' ∨ ∃ l ∈ ls, c ∈ l := by
  induction ls with
  | nil => cases hc
  | cons a rest ih =>
    cases rest with
    | nil =>
      rw [joinNl_single] at hc
      exact Or.inr ⟨a, List.mem_cons_self _ _, hc⟩
    | cons b r =>
      rw [joinNl_cons_cons] at hc
      rcases List.mem_append.mp hc with hc | hc
      · exact Or.inr ⟨a, List.mem_cons_self _ _, hc⟩
      · rcases List.mem_cons.mp hc with rfl | hc
        · exact Or.inl rfl
        · rcases ih hc with h | ⟨l, hl, hcl⟩
          · exact Or.inl h
          · exact Or.inr ⟨l, List.mem_cons_of_mem _ hl, hcl⟩

lemma segmentParagraphs_good (t : Str) :
    ∀ p ∈ segmentParagraphs t, ParaGood p := by
  intro p hp
  unfold segmentParagraphs at hp
  rw [List.mem_filterMap] at hp
  obtain ⟨g, hg, hfg⟩ := hp
  dsimp only at hfg
  by_cases he : (strip (joinNl g)).isEmpty = true
  · rw [if_pos he] at hfg
    cases hfg
  · rw [if_neg he] at hfg
    injection hfg with hfg
    subst hfg
    have hgne : g ≠ [] := by
      rintro rfl
      exact he rfl
    have hnn : ∀ l ∈ g, '\n' ∉ l := fun l hl =>
      splitNl_no_nl t l (mem_groupLines g hg l hl).1
    have hlines : ∀ l ∈ splitNl (joinNl g), blankLine l = false := by
      rw [splitNl_joinNl g hgne hnn]
      exact fun l hl => (mem_groupLines g hg l hl).2
    refine ⟨fun hc => he (by rw [hc]; rfl), strip_idem _, ?_⟩
    exact fun l hl => (splitNl_strip_spec hlines l hl).1

lemma segmentParagraphs_nil_of_strip {t : Str} (h : strip t = []) :
    segmentParagraphs t = [] := by
  have hall : ∀ c ∈ t, isPySpace c = true := (strip_eq_nil_iff t).mp h
  unfold segmentParagraphs
  rw [List.filterMap_eq_nil_iff]
  intro g hg
  dsimp only
  rw [if_pos]
  rw [List.isEmpty_iff]
  apply (strip_eq_nil_iff _).mpr
  intro c hc
  rcases joinNl_chars hc with rfl | ⟨l, hl, hcl⟩
  · rfl
  · have hlt : l ∈ splitNl t := (mem_groupLines g hg l hl).1
    have : c ∈ joinNl (splitNl t) := mem_joinNl hlt hcl
    rw [joinNl_splitNl] at this
    exact hall c this

lemma segmentParagraphs_join (ps : List Str) (hne : ps ≠ [])
    (hps : ∀ p ∈ ps, ParaGood p) :
    segmentParagraphs (List.intercalate nn ps) = ps := by
  induction ps with
  | nil => exact absurd rfl hne
  | cons p rest ih =>
    obtain ⟨hp1, hp2, hp3⟩ := hps p (List.mem_cons_self _ _)
    have hpeval : strip (joinNl (splitNl p)) = p := by rw [joinNl_splitNl, hp2]
    have hpne : p.isEmpty ≠ true := fun hc => hp1 (List.isEmpty_iff.mp hc)
    cases rest with
    | nil =>
      rw [intercalate_single]
      unfold segmentParagraphs
      rw [groupLines_all_nonblank (splitNl p) (splitNl_ne_nil p) hp3,
        List.filterMap_cons]
      dsimp only
      rw [hpeval, if_neg hpne, List.filterMap_nil]
    | cons q rest2 =>
      have hI := ih (by simp) (fun x hx => hps x (List.mem_cons_of_mem _ hx))
      unfold segmentParagraphs at hI ⊢
      rw [intercalate_cons_cons,
        show (p ++ nn) ++ List.intercalate nn (q :: rest2) =
          p ++ '\n' :: ('\n' :: List.intercalate nn (q :: rest2)) by
            simp [nn, List.append_assoc],
        splitNl_append_newline, splitNl_cons_nl,
        groupLines_append_blank (splitNl p) _ hp3,
        List.filterMap_cons]
      dsimp only
      rw [hpeval, if_neg hpne, hI]

lemma filter_not_length {α : Type} (q : α → Bool) (l : List α) :
    (l.filter (fun x => ¬ q x)).length + (l.filter q).length = l.length := by
  induction l with
  | nil => rfl
  | cons a rest ih =>
    rcases hq : q a with _ | _ <;>
      simp [List.filter_cons, hq, ← ih] <;> omega

end ParaLemmas

section SplitNNLemmas

lemma splitNN_nn (rest : Str) :
    splitNN ('\n' :: '\n' :: rest) = [] :: splitNN rest := rfl

lemma splitNN_single (c : Char) : splitNN [c] = [[c]] := by
  rw [splitNN.eq_def]
  split
  · simp_all
  · simp_all
  · rename_i c' r heq
    injection heq with h1 h2
    subst h1
    subst h2
    rfl

lemma splitNN_cons_cons (c d : Char) (rest : Str) (h : ¬ (c = '\n' ∧ d = '\n')) :
    splitNN (c :: d :: rest) =
      match splitNN (d :: rest) with
      | [] => [[c]]
      | l :: ls => (c :: l) :: ls := by
  rw [splitNN.eq_def]
  split
  · simp_all
  · rename_i r heq
    injection heq with h1 h2
    injection h2 with h2 h3
    exact absurd ⟨h1, h2⟩ h
  · rename_i c' r heq
    injection heq with h1 h2
    subst h1
    subst h2
    rfl

lemma splitNN_ne_nil (t : Str) : splitNN t ≠ [] := by
  rw [splitNN.eq_def]
  split
  · simp
  · simp
  · rename_i c r heq
    rcases splitNN r with _ | ⟨l, ls⟩ <;> simp

lemma intercalate_nn_splitNN (t : Str) : List.intercalate nn (splitNN t) = t := by
  induction t using splitNN.induct with
  | case1 => rw [show splitNN [] = [[]] from rfl, intercalate_single]
  | case2 rest ih =>
    rw [splitNN_nn]
    rcases hs : splitNN rest with _ | ⟨l, ls⟩
    · exact absurd hs (splitNN_ne_nil rest)
    · rw [intercalate_cons_cons, ← hs, ih]
      simp [nn]
  | case3 c rest hside heq ih => exact absurd heq (splitNN_ne_nil rest)
  | case4 c rest hside l ls heq ih =>
    cases rest with
    | nil =>
      rw [splitNN_single, intercalate_single]
    | cons d r =>
      have hcd : ¬ (c = '\n' ∧ d = '\n') := by
        rintro ⟨rfl, rfl⟩
        exact hside r rfl rfl
      rw [splitNN_cons_cons c d r hcd, heq]
      rw [heq] at ih
      cases ls with
      | nil =>
        rw [intercalate_single] at ih
        dsimp only
        rw [intercalate_single, ih]
      | cons l2 ls2 =>
        rw [intercalate_cons_cons] at ih
        dsimp only
        rw [intercalate_cons_cons]
        rw [← ih]
        simp

lemma chain'_nn_of_no_decomp (p : Str)
    (h : ∀ x y : Str, p ≠ x ++ '\n' :: '\n' :: y) :
    List.Chain' (fun a b => ¬ (a = '\n' ∧ b = '\n')) p := by
  induction p with
  | nil => simp
  | cons c rest ih =>
    cases rest with
    | nil => simp
    | cons d r =>
      rw [List.chain'_cons]
      constructor
      · rintro ⟨rfl, rfl⟩
        exact h [] r rfl
      · exact ih (fun x y hc => h (c :: x) y (by rw [List.cons_append, ← hc]))

lemma no_decomp_of_no_blank {p : Str}
    (h : ∀ l ∈ splitNl p, blankLine l = false) :
    ∀ x y : Str, p ≠ x ++ '\n' :: '\n' :: y := by
  intro x y hc
  have hmem : ([] : Str) ∈ splitNl p := by
    rw [hc, splitNl_append_newline, splitNl_cons_nl]
    exact List.mem_append_right _ (List.mem_cons_self _ _)
  have := h [] hmem
  rw [blankLine_nil] at this
  cases this

lemma strip_last {t : Str} (h : strip t ≠ []) :
    ∃ c, (strip t).getLast? = some c ∧ isPySpace c = false := by
  have hst : strip t = ((t.dropWhile isPySpace).reverse.dropWhile isPySpace).reverse :=
    rfl
  rcases hd : (t.dropWhile isPySpace).reverse.dropWhile isPySpace with _ | ⟨c, r⟩
  · rw [hst, hd] at h
    exact absurd rfl h
  · refine ⟨c, ?_, dropWhile_head_not hd⟩
    rw [hst, hd, List.getLast?_reverse]
    rfl

lemma paraGood_last {p : Str} (h : ParaGood p) : p.getLast? ≠ some '\n' := by
  obtain ⟨h1, h2, _⟩ := h
  obtain ⟨c, hcl, hcs⟩ := strip_last (by rw [h2]; exact h1)
  rw [h2] at hcl
  intro hc
  rw [hcl] at hc
  injection hc with hc
  subst hc
  rw [show isPySpace '\n' = true from rfl] at hcs
  cases hcs

lemma splitNN_no_sep (p : Str) (hne : p ≠ [])
    (hch : List.Chain' (fun a b => ¬ (a = '\n' ∧ b = '\n')) p) :
    splitNN p = [p] := by
  induction p with
  | nil => exact absurd rfl hne
  | cons c rest ih =>
    cases rest with
    | nil => exact splitNN_single c
    | cons d r =>
      rw [List.chain'_cons] at hch
      rw [splitNN_cons_cons c d r hch.1, ih (by simp) hch.2]

lemma splitNN_append_sep (p T : Str) (hne : p ≠ [])
    (hch : List.Chain' (fun a b => ¬ (a = '\n' ∧ b = '\n')) p)
    (hlast : p.getLast? ≠ some '\n') :
    splitNN (p ++ '\n' :: '\n' :: T) = p :: splitNN T := by
  induction p with
  | nil => exact absurd rfl hne
  | cons c rest ih =>
    cases rest with
    | nil =>
      have hc : ¬ (c = '\n' ∧ '\n' = '\n') := by
        rintro ⟨rfl, -⟩
        exact hlast rfl
      rw [List.singleton_append, splitNN_cons_cons c '\n' ('\n' :: T) hc, splitNN_nn]
    | cons d r =>
      rw [List.chain'_cons] at hch
      have hih := ih (by simp) hch.2 (by rw [List.getLast?_cons_cons] at hlast; exact hlast)
      rw [List.cons_append, List.cons_append,
        splitNN_cons_cons c d (r ++ '\n' :: '\n' :: T) hch.1]
      rw [show (d :: r) ++ '\n' :: '\n' :: T = d :: (r ++ '\n' :: '\n' :: T) from rfl] at hih
      rw [hih]

lemma splitNN_join (ps : List Str) (hne : ps ≠ [])
    (h : ∀ p ∈ ps, ParaGood p) :
    splitNN (List.intercalate nn ps) = ps := by
  induction ps with
  | nil => exact absurd rfl hne
  | cons p rest ih =>
    have hgp := h p (List.mem_cons_self _ _)
    have hch : List.Chain' (fun a b => ¬ (a = '\n' ∧ b = '\n')) p :=
      chain'_nn_of_no_decomp p (no_decomp_of_no_blank hgp.2.2)
    cases rest with
    | nil =>
      rw [intercalate_single]
      exact splitNN_no_sep p hgp.1 hch
    | cons q rest2 =>
      rw [intercalate_cons_cons,
        show (p ++ nn) ++ List.intercalate nn (q :: rest2) =
          p ++ '\n' :: '\n' :: List.intercalate nn (q :: rest2) by
            simp [nn, List.append_assoc],
        splitNN_append_sep p _ hgp.1 hch (paraGood_last hgp),
        ih (by simp) (fun x hx => h x (List.mem_cons_of_mem _ hx))]

end SplitNNLemmas

section CleanShape

set_option maxHeartbeats 2000000 in
lemma clean_eq {nfkc : Str → Str} {text : Str} (h1 : text ≠ [])
    (h2 : segParasOf nfkc text ≠ []) :
    clean nfkc text =
      (List.intercalate nn (cleanFinalParas nfkc text),
       { removed := preRemovedOf nfkc text +
           hfRemovedCount (cleanableTextOf nfkc text) +
           dcRemovedCount (hfText (cleanableTextOf nfkc text)),
         retained := ((segParasOf nfkc text).filter paraProtected).length +
           hfRetainedCount (cleanableTextOf nfkc text),
         protected_count := ((segParasOf nfkc text).filter
           (fun p => ¬ isTable p && isProtected p)).length,
         table_count := ((segParasOf nfkc text).filter isTable).length }) := by
  unfold clean
  rw [if_neg (by rw [List.isEmpty_iff]; exact h1)]
  dsimp only
  rw [if_neg (by rw [List.isEmpty_iff]; exact h2)]
  unfold preprocessCcRemoval preprocessFromToRemoval preprocessDisclaimerRemoval
    cleanWithCcFooter cleanWithDisclaimer
  dsimp only
  unfold cleanFinalParas segParasOf cleanableTextOf preprocessedText preRemovedOf
    initAudit
  unfold segParasOf preprocessedText
  dsimp only
  rw [Prod.mk.injEq]
  constructor
  · rfl
  · rw [Audit.mk.injEq]
    refine ⟨?_, ?_, ?_, ?_⟩ <;> rw [Nat.zero_add]

lemma clean_fst {nfkc : Str → Str} {text : Str} (h1 : text ≠ [])
    (h2 : segParasOf nfkc text ≠ []) :
    (clean nfkc text).1 = List.intercalate nn (cleanFinalParas nfkc text) := by
  rw [clean_eq h1 h2]

end CleanShape

section C2Lemmas

lemma infix_intercalate_of_mem {ps : List Str} {p : Str} (hp : p ∈ ps) :
    p <:+: List.intercalate nn ps := by
  induction ps with
  | nil => cases hp
  | cons a rest ih =>
    cases rest with
    | nil =>
      rw [intercalate_single]
      rcases List.mem_cons.mp hp with rfl | hp
      · exact List.infix_rfl
      · cases hp
    | cons q rest2 =>
      rw [intercalate_cons_cons]
      rcases List.mem_cons.mp hp with rfl | hp
      · have h1 : p <+: (p ++ nn) ++ List.intercalate nn (q :: rest2) := by
          rw [List.append_assoc]
          exact List.prefix_append _ _
        exact h1.isInfix
      · exact (ih hp).trans (List.suffix_append _ _).isInfix

end C2Lemmas

/-- Claim C2 (confirmed): for every input text and every paragraph of the
segmentation of the preprocessed text that is classified as a table or as
protected, the paragraph is an element of the final paragraph list of
`clean` (so it is never altered or filtered, even if it also matches a
header/footer or disclaimer pattern, since only the non-protected
paragraphs are passed to those filters) and it appears verbatim — as a
contiguous substring — in the output text of `clean`. -/
theorem C2_protected_verbatim (nfkc : Str → Str) (text p : Str)
    (h1 : text ≠ []) (hp : p ∈ segParasOf nfkc text)
    (hprot : paraProtected p = true) :
    p ∈ cleanFinalParas nfkc text ∧ p <:+: (clean nfkc text).1 := by
  have h2 : segParasOf nfkc text ≠ [] := by
    rintro hc
    rw [hc] at hp
    cases hp
  have hmem : p ∈ cleanFinalParas nfkc text := by
    unfold cleanFinalParas
    dsimp only
    exact List.mem_append_left _ (List.mem_filter.mpr ⟨hp, hprot⟩)
  refine ⟨hmem, ?_⟩
  rw [clean_fst h1 h2]
  exact infix_intercalate_of_mem hmem

/-- Claim C2, witness: a concrete protected paragraph (it matches the
case-sensitive `\bscheme\b` protected pattern) survives `clean` verbatim. -/
theorem C2_witness :
    ("scheme details".toList ≠ ([] : Str)) ∧
    "scheme details".toList ∈ segParasOf id "scheme details".toList ∧
    paraProtected "scheme details".toList = true ∧
    ("scheme details".toList ∈ cleanFinalParas id "scheme details".toList ∧
      "scheme details".toList <:+: (clean id "scheme details".toList).1) :=
  ⟨by decide, by decide, by decide,
   C2_protected_verbatim id _ _ (by decide) (by decide) (by decide)⟩

section C3Lemmas

lemma clean_retained {nfkc : Str → Str} {text : Str} (h1 : text ≠ [])
    (h2 : segParasOf nfkc text ≠ []) :
    (clean nfkc text).2.retained =
      ((segParasOf nfkc text).filter paraProtected).length +
        hfRetainedCount (cleanableTextOf nfkc text) := by
  rw [clean_eq h1 h2]

lemma clean_removed {nfkc : Str → Str} {text : Str} (h1 : text ≠ [])
    (h2 : segParasOf nfkc text ≠ []) :
    (clean nfkc text).2.removed =
      preRemovedOf nfkc text +
        hfRemovedCount (cleanableTextOf nfkc text) +
        dcRemovedCount (hfText (cleanableTextOf nfkc text)) := by
  rw [clean_eq h1 h2]

lemma clean_table_count {nfkc : Str → Str} {text : Str} (h1 : text ≠ [])
    (h2 : segParasOf nfkc text ≠ []) :
    (clean nfkc text).2.table_count =
      ((segParasOf nfkc text).filter isTable).length := by
  rw [clean_eq h1 h2]

lemma clean_protected_count {nfkc : Str → Str} {text : Str} (h1 : text ≠ [])
    (h2 : segParasOf nfkc text ≠ []) :
    (clean nfkc text).2.protected_count =
      ((segParasOf nfkc text).filter (fun p => ¬ isTable p && isProtected p)).length := by
  rw [clean_eq h1 h2]

lemma tableProt_split (l : List Str) :
    (l.filter isTable).length +
      (l.filter (fun p => ¬ isTable p && isProtected p)).length =
      (l.filter paraProtected).length := by
  induction l with
  | nil => rfl
  | cons a rest ih =>
    rcases ht : isTable a with _ | _ <;> rcases hp : isProtected a with _ | _ <;>
      simp [List.filter_cons, paraProtected, ht, hp, ← ih] <;> omega

lemma hf_counts_join (ps : List Str) (h : ∀ p ∈ ps, ParaGood p) :
    hfRetainedCount (List.intercalate nn ps) +
      hfRemovedCount (List.intercalate nn ps) = ps.length := by
  rcases hps : ps with _ | ⟨p, rest⟩
  · rfl
  · rw [← hps]
    have hne : ps ≠ [] := by rw [hps]; simp
    have hsne : ¬ (strip (List.intercalate nn ps)).isEmpty = true := by
      rw [List.isEmpty_iff]
      exact strip_intercalate_ne_nil hne h
    unfold hfRetainedCount hfRemovedCount
    rw [if_neg hsne, if_neg hsne, segmentParagraphs_join ps hne h]
    exact filter_not_length hfNoise ps

lemma hf_counts_cleanable (nfkc : Str → Str) (text : Str) :
    hfRetainedCount (cleanableTextOf nfkc text) +
      hfRemovedCount (cleanableTextOf nfkc text) =
      ((segParasOf nfkc text).filter (fun p => ¬ paraProtected p)).length := by
  unfold cleanableTextOf
  exact hf_counts_join _ (fun p hp => segmentParagraphs_good _ p (List.mem_filter.mp hp).1)

end C3Lemmas

/-- Claim C3, amended: the audit counters of `clean` satisfy an exact
accounting that differs from the claimed `retained + removed = total
paragraphs`: the sum also counts the removals of the three pre-segmentation
stages (which are not paragraphs of the segmentation) and double-counts
every paragraph removed by the disclaimer stage, because
`_clean_with_cc_footer` already counted it as retained and
`_clean_with_disclaimer` counts it again as removed without decrementing.
The claimed equality holds exactly when both extra terms are zero.  The
claim's second conjunct does hold: the table and protected counts sum to
the number of protected paragraphs, which is counted within retained. -/
theorem C3_audit_accounting (nfkc : Str → Str) (text : Str)
    (h1 : text ≠ []) (h2 : segParasOf nfkc text ≠ []) :
    ((clean nfkc text).2.retained + (clean nfkc text).2.removed =
      (segParasOf nfkc text).length + preRemovedOf nfkc text +
        dcRemovedCount (hfText (cleanableTextOf nfkc text))) ∧
    (clean nfkc text).2.table_count + (clean nfkc text).2.protected_count ≤
      (clean nfkc text).2.retained := by
  constructor
  · rw [clean_retained h1 h2, clean_removed h1 h2]
    have hhf := hf_counts_cleanable nfkc text
    have hsplit := filter_not_length paraProtected (segParasOf nfkc text)
    omega
  · rw [clean_retained h1 h2, clean_table_count h1 h2, clean_protected_count h1 h2,
      tableProt_split]
    exact Nat.le_add_right _ _

/-- Claim C3, counterexample: on a two-paragraph input whose second
paragraph is removed by the paragraph-level disclaimer filter, the final
audit has `retained + removed = 3` while only two paragraphs were observed
after segmentation: the disclaimer paragraph is counted both as retained
(by the header/footer stage) and as removed (by the disclaimer stage). -/
theorem C3_counterexample :
    (clean id "scheme details\n\ndisclosure dissemination recipient".toList).2.retained +
      (clean id "scheme details\n\ndisclosure dissemination recipient".toList).2.removed ≠
    (segParasOf id "scheme details\n\ndisclosure dissemination recipient".toList).length := by
  decide

/-- Claim C3, witness: the amended accounting at a concrete input with a
disclaimer paragraph (`2 + 1 = 2 + 0 + 1`, and `table + protected =
0 + 1 ≤ 2 = retained`). -/
theorem C3_witness :
    ("scheme details\n\ndisclosure dissemination recipient".toList ≠ ([] : Str)) ∧
    segParasOf id "scheme details\n\ndisclosure dissemination recipient".toList ≠ [] ∧
    (((clean id "scheme details\n\ndisclosure dissemination recipient".toList).2.retained +
      (clean id "scheme details\n\ndisclosure dissemination recipient".toList).2.removed =
      (segParasOf id "scheme details\n\ndisclosure dissemination recipient".toList).length +
        preRemovedOf id "scheme details\n\ndisclosure dissemination recipient".toList +
        dcRemovedCount (hfText (cleanableTextOf id
          "scheme details\n\ndisclosure dissemination recipient".toList))) ∧
     (clean id "scheme details\n\ndisclosure dissemination recipient".toList).2.table_count +
       (clean id "scheme details\n\ndisclosure dissemination recipient".toList).2.protected_count ≤
       (clean id "scheme details\n\ndisclosure dissemination recipient".toList).2.retained) :=
  ⟨by decide, by decide,
   C3_audit_accounting id _ (by decide) (by decide)⟩

section C10Lemmas

lemma ccProcess_mem (skip : Bool) (ls : List Str) :
    ∀ l ∈ (ccProcess skip ls).1, l ∈ ls := by
  induction ls generalizing skip with
  | nil => intro l hl; cases hl
  | cons line rest ih =>
    intro l hl
    unfold ccProcess at hl
    dsimp only at hl
    by_cases hc : ccStartB (strip line) = true
    · rw [if_pos hc] at hl
      exact List.mem_cons_of_mem _ (ih true l hl)
    · rw [if_neg hc] at hl
      by_cases hs : (skip && (hasEmailB (strip line) || endsSepB (strip line))) = true
      · rw [if_pos hs] at hl
        exact List.mem_cons_of_mem _ (ih true l hl)
      · rw [if_neg hs] at hl
        rcases List.mem_cons.mp hl with rfl | hl
        · exact List.mem_cons_self _ _
        · exact List.mem_cons_of_mem _ (ih false l hl)

lemma ftProcess_mem (skip : Bool) (ls : List Str) :
    ∀ l ∈ (ftProcess skip ls).1, l ∈ ls := by
  induction ls generalizing skip with
  | nil => intro l hl; cases hl
  | cons line rest ih =>
    intro l hl
    unfold ftProcess at hl
    dsimp only at hl
    by_cases hc : ftStartB (strip line) = true
    · rw [if_pos hc] at hl
      exact List.mem_cons_of_mem _ (ih true l hl)
    · rw [if_neg hc] at hl
      by_cases hs : (skip && ¬ (strip line).isEmpty &&
          (hasEmailB (strip line) || endsSepB (strip line) ||
            (strip line).contains '<' || (strip line).contains '>')) = true
      · rw [if_pos hs] at hl
        exact List.mem_cons_of_mem _ (ih true l hl)
      · rw [if_neg hs] at hl
        rcases List.mem_cons.mp hl with rfl | hl
        · exact List.mem_cons_self _ _
        · exact List.mem_cons_of_mem _ (ih false l hl)

lemma ccProcess_no_cc (skip : Bool) (ls : List Str) :
    ∀ l ∈ (ccProcess skip ls).1, ccStartB (strip l) = false := by
  induction ls generalizing skip with
  | nil => intro l hl; cases hl
  | cons line rest ih =>
    intro l hl
    unfold ccProcess at hl
    dsimp only at hl
    by_cases hc : ccStartB (strip line) = true
    · rw [if_pos hc] at hl
      exact ih true l hl
    · rw [if_neg hc] at hl
      by_cases hs : (skip && (hasEmailB (strip line) || endsSepB (strip line))) = true
      · rw [if_pos hs] at hl
        exact ih true l hl
      · rw [if_neg hs] at hl
        rcases List.mem_cons.mp hl with rfl | hl
        · exact Bool.eq_false_iff.mpr hc
        · exact ih false l hl

lemma ccText_no_cc (t : Str) :
    ∀ l ∈ splitNl (ccText t), ccStartB (strip l) = false := by
  unfold ccText
  rcases hk : (ccProcess false (splitNl t)).1 with _ | ⟨a, r⟩
  · intro l hl
    rw [show joinNl [] = ([] : Str) from rfl, splitNl_nil] at hl
    rcases List.mem_cons.mp hl with rfl | hl
    · rfl
    · cases hl
  · have hmem : ∀ l ∈ a :: r, l ∈ splitNl t := by
      intro l hl
      rw [← hk] at hl
      exact ccProcess_mem false (splitNl t) l hl
    rw [splitNl_joinNl (a :: r) (by simp)
      (fun l hl => splitNl_no_nl t l (hmem l hl))]
    intro l hl
    rw [← hk] at hl
    exact ccProcess_no_cc false (splitNl t) l hl

lemma ftText_no_cc {t : Str}
    (h : ∀ l ∈ splitNl t, ccStartB (strip l) = false) :
    ∀ l ∈ splitNl (ftText t), ccStartB (strip l) = false := by
  unfold ftText
  rcases hk : (ftProcess false (splitNl t)).1 with _ | ⟨a, r⟩
  · intro l hl
    rw [show joinNl [] = ([] : Str) from rfl, splitNl_nil] at hl
    rcases List.mem_cons.mp hl with rfl | hl
    · rfl
    · cases hl
  · have hmem : ∀ l ∈ a :: r, l ∈ splitNl t := by
      intro l hl
      rw [← hk] at hl
      exact ftProcess_mem false (splitNl t) l hl
    rw [splitNl_joinNl (a :: r) (by simp)
      (fun l hl => splitNl_no_nl t l (hmem l hl))]
    intro l hl
    exact h l (hmem l hl)

lemma seg_no_cc {t : Str} (h : ∀ l ∈ splitNl t, ccStartB (strip l) = false) :
    ∀ p ∈ segmentParagraphs t, ∀ l ∈ splitNl p, ccStartB (strip l) = false := by
  intro p hp l hl
  unfold segmentParagraphs at hp
  rw [List.mem_filterMap] at hp
  obtain ⟨g, hg, hfg⟩ := hp
  dsimp only at hfg
  by_cases he : (strip (joinNl g)).isEmpty = true
  · rw [if_pos he] at hfg
    cases hfg
  · rw [if_neg he] at hfg
    injection hfg with hfg
    subst hfg
    have hgne : g ≠ [] := by
      rintro rfl
      exact he rfl
    have hnn : ∀ x ∈ g, '\n' ∉ x := fun x hx =>
      splitNl_no_nl t x (mem_groupLines g hg x hx).1
    have hlines : ∀ x ∈ splitNl (joinNl g), blankLine x = false := by
      rw [splitNl_joinNl g hgne hnn]
      exact fun x hx => (mem_groupLines g hg x hx).2
    obtain ⟨-, l0, hl0, hsl⟩ := splitNl_strip_spec hlines l hl
    rw [splitNl_joinNl g hgne hnn] at hl0
    have hl0t : l0 ∈ splitNl t := (mem_groupLines g hg l0 hl0).1
    calc ccStartB (strip l) = ccStartB (strip l0) := by rw [hsl]
    _ = false := h l0 hl0t

lemma intercalate_no_cc {ps : List Str}
    (h : ∀ p ∈ ps, ∀ l ∈ splitNl p, ccStartB (strip l) = false) :
    ∀ l ∈ splitNl (List.intercalate nn ps), ccStartB (strip l) = false := by
  rcases hps : ps with _ | ⟨p, rest⟩
  · intro l hl
    rw [show List.intercalate nn [] = ([] : Str) from rfl, splitNl_nil] at hl
    rcases List.mem_cons.mp hl with rfl | hl
    · rfl
    · cases hl
  · rw [← hps]
    intro l hl
    rcases lines_of_intercalate (by rw [hps]; simp) l hl with rfl | ⟨q, hq, hlq⟩
    · rfl
    · exact h q hq l hlq

lemma hfText_no_cc {t : Str}
    (h : ∀ l ∈ splitNl t, ccStartB (strip l) = false) :
    ∀ l ∈ splitNl (hfText t), ccStartB (strip l) = false := by
  unfold hfText
  by_cases he : (strip t).isEmpty = true
  · rw [if_pos he]
    exact h
  · rw [if_neg he]
    exact intercalate_no_cc (fun p hp => seg_no_cc h p (List.mem_filter.mp hp).1)

lemma dcText_no_cc {t : Str}
    (h : ∀ l ∈ splitNl t, ccStartB (strip l) = false) :
    ∀ l ∈ splitNl (dcText t), ccStartB (strip l) = false := by
  unfold dcText
  by_cases he : (strip t).isEmpty = true
  · rw [if_pos he]
    exact h
  · rw [if_neg he]
    exact intercalate_no_cc (fun p hp => seg_no_cc h p (List.mem_filter.mp hp).1)

lemma mem_splitNl_splitNN {ct piece l : Str}
    (hp : piece ∈ splitNN ct) (hl : l ∈ splitNl piece) : l ∈ splitNl ct := by
  rw [← intercalate_nn_splitNN ct]
  exact mem_lines_intercalate hp hl

lemma clean_nil_fst (nfkc : Str → Str) : (clean nfkc []).1 = [] := rfl

lemma clean_fst_no_paras {nfkc : Str → Str} {text : Str} (h1 : text ≠ [])
    (h2 : segParasOf nfkc text = []) : (clean nfkc text).1 = [] := by
  unfold segParasOf preprocessedText at h2
  unfold clean
  rw [if_neg (by rw [List.isEmpty_iff]; exact h1)]
  unfold preprocessCcRemoval preprocessFromToRemoval preprocessDisclaimerRemoval
  dsimp only
  rw [if_pos (by rw [List.isEmpty_iff]; exact h2)]

end C10Lemmas

/-- Claim C10, amended: the Cc-block removal runs before segmentation and
protection classification and removes every `Cc:` line, including those
inside blocks later classified as tables or protected; the from/to-block
stage removes only whole lines, so it cannot create a `Cc:` line either.
So *provided* the disclaimer-block pre-stage leaves the text it receives
unchanged, no line of the output of `clean` has a stripped form matching
`(?i)^Cc\s*:`.  (Without that proviso the guarantee fails: the
disclaimer-block stage deletes a character span mid-line and can splice a
fresh `Cc:` line into a protected block, see the counterexample.) -/
theorem C10_no_cc_lines (nfkc : Str → Str) (text : Str)
    (hdisc : discText (ftText (ccText (normalizeText nfkc text))) =
      ftText (ccText (normalizeText nfkc text))) :
    ∀ l ∈ splitNl (clean nfkc text).1, ccStartB (strip l) = false := by
  have hpcc : ∀ l ∈ splitNl (preprocessedText nfkc text), ccStartB (strip l) = false := by
    unfold preprocessedText
    rw [hdisc]
    exact ftText_no_cc (ccText_no_cc _)
  by_cases h1 : text = []
  · subst h1
    rw [clean_nil_fst]
    intro l hl
    rw [splitNl_nil] at hl
    rcases List.mem_cons.mp hl with rfl | hl
    · rfl
    · cases hl
  by_cases h2 : segParasOf nfkc text = []
  · rw [clean_fst_no_paras h1 h2]
    intro l hl
    rw [splitNl_nil] at hl
    rcases List.mem_cons.mp hl with rfl | hl
    · rfl
    · cases hl
  rw [clean_fst h1 h2]
  apply intercalate_no_cc
  intro p hp l hl
  unfold cleanFinalParas at hp
  dsimp only at hp
  rcases List.mem_append.mp hp with hp | hp
  · have hpm : p ∈ segParasOf nfkc text := (List.mem_filter.mp hp).1
    unfold segParasOf at hpm
    exact seg_no_cc hpcc p hpm l hl
  · have hctcc : ∀ x ∈ splitNl (dcText (hfText (cleanableTextOf nfkc text))),
        ccStartB (strip x) = false := by
      apply dcText_no_cc
      apply hfText_no_cc
      unfold cleanableTextOf
      apply intercalate_no_cc
      intro q hq
      have hqm : q ∈ segParasOf nfkc text := (List.mem_filter.mp hq).1
      unfold segParasOf at hqm
      exact seg_no_cc hpcc q hqm
    by_cases he : (strip (dcText (hfText (cleanableTextOf nfkc text)))).isEmpty = true
    · rw [if_pos he] at hp
      cases hp
    · rw [if_neg he] at hp
      exact hctcc l (mem_splitNl_splitNN hp hl)

/-- Claim C10, witness: the amended theorem at a concrete email with both a
`Cc:` and a `From:` line (so the from/to stage really removes a block);
only the disclaimer pre-stage is required to be a no-op, and no output line
starts with `Cc:`. -/
theorem C10_witness :
    discText (ftText (ccText (normalizeText id
        "Cc: alice@example.com\nFrom: bob@example.com\nHello team\n\nscheme details".toList))) =
      ftText (ccText (normalizeText id
        "Cc: alice@example.com\nFrom: bob@example.com\nHello team\n\nscheme details".toList)) ∧
    ∀ l ∈ splitNl (clean id
        "Cc: alice@example.com\nFrom: bob@example.com\nHello team\n\nscheme details".toList).1,
      ccStartB (strip l) = false :=
  ⟨by decide,
   C10_no_cc_lines id
     "Cc: alice@example.com\nFrom: bob@example.com\nHello team\n\nscheme details".toList
     (by decide)⟩

/-- Claim C10, counterexample: the disclaimer-block pre-stage deletes a
span that starts after a literal `C` and ends just before `c: x`, splicing
a fresh `Cc: x` line into a pipe table; the table is protected, so the
output of `clean` contains a line whose stripped form matches
`(?i)^Cc\s*:`. -/
theorem C10_counterexample :
    ∃ l ∈ splitNl (clean id ("| a |\n| b |\nCthis message contains confidential informationstrictly prohibited.c: x".toList)).1,
      ccStartB (strip l) = true := by
  decide

section C8Lemmas

lemma intercalate_nn_ne_nil {ps : List Str} (hne : ps ≠ [])
    (h : ∀ p ∈ ps, ParaGood p) : List.intercalate nn ps ≠ [] := by
  intro hc
  apply strip_intercalate_ne_nil hne h
  rw [hc]
  rfl

lemma hf_join (ps : List Str) (h : ∀ p ∈ ps, ParaGood p) :
    hfText (List.intercalate nn ps) =
      List.intercalate nn (ps.filter (fun p => ¬ hfNoise p)) := by
  by_cases hne : ps = []
  · subst hne
    rfl
  · unfold hfText
    rw [if_neg (by rw [List.isEmpty_iff]; exact strip_intercalate_ne_nil hne h)]
    rw [segmentParagraphs_join ps hne h]

lemma dc_join (ps : List Str) (h : ∀ p ∈ ps, ParaGood p) :
    dcText (List.intercalate nn ps) =
      List.intercalate nn (ps.filter (fun p => ¬ dcIsDisclaimer p)) := by
  by_cases hne : ps = []
  · subst hne
    rfl
  · unfold dcText
    rw [if_neg (by rw [List.isEmpty_iff]; exact strip_intercalate_ne_nil hne h)]
    rw [segmentParagraphs_join ps hne h]

lemma cleanFinalParas_eq (nfkc : Str → Str) (text : Str) :
    cleanFinalParas nfkc text =
      ((segParasOf nfkc text).filter paraProtected) ++
        ((((segParasOf nfkc text).filter (fun p => ¬ paraProtected p)).filter
            (fun p => ¬ hfNoise p)).filter (fun p => ¬ dcIsDisclaimer p)) := by
  have hgood : ∀ p ∈ (segParasOf nfkc text).filter (fun p => ¬ paraProtected p),
      ParaGood p :=
    fun p hp => segmentParagraphs_good _ p (List.mem_filter.mp hp).1
  have hgood1 : ∀ p ∈ ((segParasOf nfkc text).filter
      (fun p => ¬ paraProtected p)).filter (fun p => ¬ hfNoise p), ParaGood p :=
    fun p hp => hgood p (List.mem_filter.mp hp).1
  have hgood2 : ∀ p ∈ (((segParasOf nfkc text).filter
      (fun p => ¬ paraProtected p)).filter (fun p => ¬ hfNoise p)).filter
      (fun p => ¬ dcIsDisclaimer p), ParaGood p :=
    fun p hp => hgood1 p (List.mem_filter.mp hp).1
  unfold cleanFinalParas cleanableTextOf
  dsimp only
  rw [hf_join _ hgood, dc_join _ hgood1]
  by_cases hS : (((segParasOf nfkc text).filter
      (fun p => ¬ paraProtected p)).filter (fun p => ¬ hfNoise p)).filter
      (fun p => ¬ dcIsDisclaimer p) = []
  · rw [hS]
    rw [show List.intercalate nn ([] : List Str) = ([] : Str) from rfl]
    rw [if_pos (show (strip ([] : Str)).isEmpty = true from rfl)]
  · rw [if_neg (by rw [List.isEmpty_iff]; exact strip_intercalate_ne_nil hS hgood2),
      splitNN_join _ hS hgood2]

lemma cleanFinalParas_good (nfkc : Str → Str) (text : Str) :
    ∀ p ∈ cleanFinalParas nfkc text, ParaGood p := by
  intro p hp
  rw [cleanFinalParas_eq] at hp
  rcases List.mem_append.mp hp with hp | hp
  · exact segmentParagraphs_good _ p (List.mem_filter.mp hp).1
  · exact segmentParagraphs_good _ p
      (List.mem_filter.mp (List.mem_filter.mp (List.mem_filter.mp hp).1).1).1

end C8Lemmas

/-- Claim C8 (confirmed): cleaning is idempotent on texts whose cleaned
output contains no freshly-introduced noise: whenever the normalization and
the three pre-segmentation block-removal stages leave the cleaned output
unchanged (no new `Cc:`/`From:`/`To:` or disclaimer-marker material was
spliced into it), running `clean` on the cleaned output reproduces it
exactly.  The paragraph-level stages need no extra hypothesis: paragraphs
kept by the first run are protected, or already passed the header/footer
and disclaimer filters, so the second run keeps them all. -/
theorem C8_idempotent (nfkc : Str → Str) (text : Str)
    (hfix : preprocessedText nfkc ((clean nfkc text).1) = (clean nfkc text).1) :
    (clean nfkc ((clean nfkc text).1)).1 = (clean nfkc text).1 := by
  by_cases h1 : text = []
  · subst h1
    rw [clean_nil_fst nfkc]
    exact clean_nil_fst nfkc
  by_cases h2 : segParasOf nfkc text = []
  · rw [clean_fst_no_paras h1 h2]
    exact clean_nil_fst nfkc
  have hc : (clean nfkc text).1 = List.intercalate nn (cleanFinalParas nfkc text) :=
    clean_fst h1 h2
  have hFgood := cleanFinalParas_good nfkc text
  by_cases hFne : cleanFinalParas nfkc text = []
  · rw [hc, hFne]
    rw [show List.intercalate nn ([] : List Str) = ([] : Str) from rfl]
    exact clean_nil_fst nfkc
  · have hcne : (clean nfkc text).1 ≠ [] := by
      rw [hc]
      exact intercalate_nn_ne_nil hFne hFgood
    have hsegc : segParasOf nfkc ((clean nfkc text).1) = cleanFinalParas nfkc text := by
      unfold segParasOf
      rw [hfix, hc]
      exact segmentParagraphs_join _ hFne hFgood
    have hsegne : segParasOf nfkc ((clean nfkc text).1) ≠ [] := by
      rw [hsegc]
      exact hFne
    rw [clean_fst hcne hsegne]
    have hprotA : ∀ p ∈ (segParasOf nfkc text).filter paraProtected,
        paraProtected p = true :=
      fun p hp => (List.mem_filter.mp hp).2
    have hB : ∀ p ∈ (((segParasOf nfkc text).filter
        (fun p => ¬ paraProtected p)).filter (fun p => ¬ hfNoise p)).filter
        (fun p => ¬ dcIsDisclaimer p),
        paraProtected p = false ∧ hfNoise p = false ∧ dcIsDisclaimer p = false := by
      intro p hp
      obtain ⟨hp1, hdc⟩ := List.mem_filter.mp hp
      obtain ⟨hp2, hhf⟩ := List.mem_filter.mp hp1
      obtain ⟨-, hpr⟩ := List.mem_filter.mp hp2
      refine ⟨?_, ?_, ?_⟩
      · exact Bool.eq_false_iff.mpr (of_decide_eq_true hpr)
      · exact Bool.eq_false_iff.mpr (of_decide_eq_true hhf)
      · exact Bool.eq_false_iff.mpr (of_decide_eq_true hdc)
    have hAeqA : ((segParasOf nfkc text).filter paraProtected).filter paraProtected
        = (segParasOf nfkc text).filter paraProtected :=
      List.filter_eq_self.mpr hprotA
    have hBfpProt : ((((segParasOf nfkc text).filter (fun p => ¬ paraProtected p)).filter
            (fun p => ¬ hfNoise p)).filter (fun p => ¬ dcIsDisclaimer p)).filter
          paraProtected = [] :=
      List.filter_eq_nil_iff.mpr (fun p hp => by rw [(hB p hp).1]; simp)
    have hAfpNot : ((segParasOf nfkc text).filter paraProtected).filter
          (fun p => ¬ paraProtected p) = [] :=
      List.filter_eq_nil_iff.mpr (fun p hp => by
        have hpt := hprotA p hp
        simp [hpt])
    have hBfpNot : ((((segParasOf nfkc text).filter (fun p => ¬ paraProtected p)).filter
            (fun p => ¬ hfNoise p)).filter (fun p => ¬ dcIsDisclaimer p)).filter
          (fun p => ¬ paraProtected p) =
        (((segParasOf nfkc text).filter (fun p => ¬ paraProtected p)).filter
            (fun p => ¬ hfNoise p)).filter (fun p => ¬ dcIsDisclaimer p) :=
      List.filter_eq_self.mpr (fun p hp => by
        rw [decide_eq_true_eq]
        intro hcon
        rw [(hB p hp).1] at hcon
        cases hcon)
    have e1 : ((((segParasOf nfkc text).filter paraProtected) ++
        ((((segParasOf nfkc text).filter (fun p => ¬ paraProtected p)).filter
            (fun p => ¬ hfNoise p)).filter (fun p => ¬ dcIsDisclaimer p))).filter
          paraProtected) =
        (segParasOf nfkc text).filter paraProtected := by
      rw [List.filter_append, hAeqA, hBfpProt, List.append_nil]
    have e2 : ((((segParasOf nfkc text).filter paraProtected) ++
        ((((segParasOf nfkc text).filter (fun p => ¬ paraProtected p)).filter
            (fun p => ¬ hfNoise p)).filter (fun p => ¬ dcIsDisclaimer p))).filter
          (fun p => ¬ paraProtected p)) =
        (((segParasOf nfkc text).filter (fun p => ¬ paraProtected p)).filter
            (fun p => ¬ hfNoise p)).filter (fun p => ¬ dcIsDisclaimer p) := by
      rw [List.filter_append, hAfpNot, hBfpNot, List.nil_append]
    have e3 : ((((segParasOf nfkc text).filter (fun p => ¬ paraProtected p)).filter
            (fun p => ¬ hfNoise p)).filter (fun p => ¬ dcIsDisclaimer p)).filter
          (fun p => ¬ hfNoise p) =
        (((segParasOf nfkc text).filter (fun p => ¬ paraProtected p)).filter
            (fun p => ¬ hfNoise p)).filter (fun p => ¬ dcIsDisclaimer p) :=
      List.filter_eq_self.mpr (fun p hp => by
        rw [decide_eq_true_eq]
        intro hcon
        rw [(hB p hp).2.1] at hcon
        cases hcon)
    have e4 : ((((segParasOf nfkc text).filter (fun p => ¬ paraProtected p)).filter
            (fun p => ¬ hfNoise p)).filter (fun p => ¬ dcIsDisclaimer p)).filter
          (fun p => ¬ dcIsDisclaimer p) =
        (((segParasOf nfkc text).filter (fun p => ¬ paraProtected p)).filter
            (fun p => ¬ hfNoise p)).filter (fun p => ¬ dcIsDisclaimer p) :=
      List.filter_eq_self.mpr (fun p hp => by
        rw [decide_eq_true_eq]
        intro hcon
        rw [(hB p hp).2.2] at hcon
        cases hcon)
    have hkey : cleanFinalParas nfkc ((clean nfkc text).1) = cleanFinalParas nfkc text := by
      rw [cleanFinalParas_eq nfkc ((clean nfkc text).1), hsegc,
        cleanFinalParas_eq nfkc text, e1, e2, e3, e4]
    rw [hkey, ← hc]

/-- Claim C8, witness: a concrete fixed point — a protected paragraph whose
cleaned output equals itself, on which the second `clean` run reproduces
the first. -/
theorem C8_witness :
    preprocessedText id ((clean id "scheme details".toList).1) =
      (clean id "scheme details".toList).1 ∧
    (clean id ((clean id "scheme details".toList).1)).1 =
      (clean id "scheme details".toList).1 :=
  ⟨by decide, C8_idempotent id "scheme details".toList (by decide)⟩
